import Mathlib

/-!
Verification of the low-level EIB/KNX bus access layer (`bus.cpp`) of the
sblib library.  The interrupt-driven transceiver state machine, the telegram
preparation and the foreground send queue are embedded shallowly: every
member of the `Bus` class that the verified properties touch becomes a field
of the `BusS` record, the timer interrupt handler becomes a function from an
interrupt event (which timer flags fired, the captured value, the counter
value) and a pre-state to a post-state, and the two places where the source
dereferences the possibly-null `sendCurTelegram` without a guard are modelled
by an `Except` fault.
-/

namespace KnxBus

/-! ## Timing and protocol constants (from bus.cpp) -/

/-- Default time between two bits (104 usec). -/
def BIT_TIME : Nat := 104

/-- Time between two bits (69 usec). -/
def BIT_WAIT_TIME : Nat := 69

/-- Pulse duration of a bit (35 usec). -/
def BIT_PULSE_TIME : Nat := 35

/-- Maximum time from start bit to stop bit, including a safety extra. -/
def BYTE_TIME : Nat := 1090

/-- Time to wait before sending an ACK. -/
def SEND_ACK_WAIT_TIME : Nat := 1177

/-- Time to wait before starting to send. -/
def SEND_WAIT_TIME : Nat := 5200

/-- Time to listen for bus activity before sending starts. -/
def PRE_SEND_TIME : Nat := 104

/-- Telegram repeat flag in byte 0 of the telegram: 1=not repeated, 0=repeated. -/
def SB_TEL_REPEAT_FLAG : Nat := 0x20

/-- Modelled from the spec: the acknowledgment byte 0xCC (constant from the
missing header sblib/eib/bus.h; the spec gives the value explicitly). -/
def SB_BUS_ACK : Nat := 0xCC

/-- Modelled from the spec: the negative-acknowledgment byte 0x0C (constant
from the missing header; the spec gives the value explicitly). -/
def SB_BUS_NACK : Nat := 0x0C

/-- Modelled from the spec: the telegram buffer capacity (constant from the
missing header; the spec states 23 is sufficient). -/
def SB_TELEGRAM_SIZE : Nat := 23

/-- Modelled from the spec: `telegramSize` lives in the missing header.
Reconstructed from the spec's octet layout: octets 0..5 are the fixed header,
octet 5 bits 0..3 give the length of the APCI/data area that follows octet 6,
and the checksum sits at the returned index, so the size (checksum index) is
7 plus the low nibble of octet 5. -/
def telegramSize (tel : List Nat) : Nat := 7 + (tel.getD 5 0 &&& 15)

/-! ## Bus data model -/

/-- The transceiver state, one constructor per `enum` value of the source. -/
inductive BusState where
  | IDLE
  | RECV_START
  | RECV_BYTE
  | SEND_INIT
  | SEND_START_BIT
  | SEND_BIT_0
  | SEND_BIT
  | SEND_BIT_WAIT
  | SEND_END
  | SEND_WAIT
deriving DecidableEq, Repr

/-- The mutable members of the `Bus` object, plus the two timer match
registers the handler programs (`matchPwm` for the PWM channel driving the
transmit pin, `matchTime` for the timeout channel).  Telegram buffers are
externally owned `unsigned char` arrays; the two send slots hold the buffer
contents as lists (a `none` models a null pointer).

The two final fields are ghost (verification-only) counters that are not part
of the source state: `attempts` counts the completed non-acknowledgment
transmissions since the send slot last advanced, `flips` counts how often the
repeat-flag/checksum inversion of SEND_INIT ran since the send slot last
advanced. -/
structure BusS where
  state : BusState
  telegram : List Nat
  telegramLen : Nat
  nextByteIndex : Nat
  currentByte : Nat
  bitMask : Nat
  bitTime : Nat
  parity : Bool
  valid : Bool
  checksum : Nat
  collision : Bool
  ownAddr : Nat
  sendCurTelegram : Option (List Nat)
  sendNextTel : Option (List Nat)
  sendTelegramLen : Nat
  sendTries : Nat
  sendAck : Nat
  matchPwm : Nat
  matchTime : Nat
  attempts : Nat
  flips : Nat
deriving DecidableEq, Repr

/-- One invocation of the timer interrupt handler observes the capture flag,
the timeout flag, the capture register and the free-running counter. -/
structure IsrInput where
  captureFlag : Bool
  timeFlag : Bool
  captureVal : Nat
  timerVal : Nat
deriving DecidableEq, Repr

/-- External collaborators of the bus layer (the spec declares them out of
scope): the BCU_STATUS_TL status bit of the user RAM and the group address
table lookup `indexOfAddr` (negative = not found). -/
structure Env where
  statusTL : Bool
  indexOfAddr : Nat → Int

/-- The faults the embedding can surface: dereferencing a null telegram
pointer, or the foreground soft fault `fatalError()`. -/
inductive BusFault where
  | nullDeref
  | fatal
deriving DecidableEq, Repr

/-! ## prepareTelegram (foreground) -/

/-- The checksum loop of `Bus::prepareTelegram`: an `unsigned char`
accumulator starting at 0xff, XORed with octets 0..n-1. -/
def calcChecksum (tel : List Nat) : Nat → Nat
  | 0 => 0xff
  | n + 1 => (calcChecksum tel n ^^^ tel.getD n 0) &&& 0xff

/-- `Bus::prepareTelegram`: stamp the own address into octets 1..2 (byte
truncation of the `unsigned char` stores made explicit), then store the
checksum over octets 0..length-1 at index length. -/
def prepareTelegram (ownAddr : Nat) (tel : List Nat) (length : Nat) : List Nat :=
  let t2 := (tel.set 1 ((ownAddr >>> 8) &&& 0xff)).set 2 (ownAddr &&& 0xff)
  t2.set length (calcChecksum t2 length)

/-- Plain XOR fold over octets 0..n-1 of a buffer (the quantity claim C1
talks about, with the checksum octet included when n = length + 1). -/
def xorUpTo (tel : List Nat) : Nat → Nat
  | 0 => 0
  | n + 1 => xorUpTo tel n ^^^ tel.getD n 0

/-! ## Receiver bit-sampling loop (RECV_BYTE) -/

/-- The inner `while` of the RECV_BYTE case: while the event time lies at
least BIT_WAIT_TIME past the current bit cell and the mask has not passed
0x100, OR the mask into the byte, toggle the parity, advance the bit time by
one cell and shift the mask. Returns (bitTime, bitMask, currentByte, parity). -/
def recvBitsInner (time bitTime bitMask currentByte : Nat) (parity : Bool) :
    Nat × Nat × Nat × Bool :=
  if bitTime + BIT_WAIT_TIME ≤ time ∧ bitMask ≤ 0x100 then
    recvBitsInner time (bitTime + BIT_TIME) (bitMask <<< 1)
      (currentByte ||| bitMask) (!parity)
  else
    (bitTime, bitMask, currentByte, parity)
termination_by time + 1 - bitTime
decreasing_by
  rename_i h
  simp only [BIT_WAIT_TIME, BIT_TIME] at *
  omega

/-- The whole bit-sampling block of the RECV_BYTE case as the source writes
it: an outer guard on the event time, then an extra advance of `bitTime` by
one BIT_TIME before the inner while runs, and a final extra shift of the
mask inside the guard. -/
def recvBits (time bitTime bitMask currentByte : Nat) (parity : Bool) :
    Nat × Nat × Nat × Bool :=
  if bitTime + BIT_WAIT_TIME ≤ time then
    let r := recvBitsInner time (bitTime + BIT_TIME) bitMask currentByte parity
    (r.1, r.2.1 <<< 1, r.2.2.1, r.2.2.2)
  else
    (bitTime, bitMask, currentByte, parity)

/-- The bit-sampling loop exactly as claim C6 describes it (a definition from
the claim's words, for comparison with `recvBits` from the source): while
time is at least bitTime + BIT_WAIT_TIME and bitMask is at most 0x100,
consume one bit cell; when that loop exits, advance the mask exactly one more
position. -/
def recvBitsClaimInner (time bitTime bitMask currentByte : Nat) (parity : Bool) :
    Nat × Nat × Nat × Bool :=
  if bitTime + BIT_WAIT_TIME ≤ time ∧ bitMask ≤ 0x100 then
    recvBitsClaimInner time (bitTime + BIT_TIME) (bitMask <<< 1)
      (currentByte ||| bitMask) (!parity)
  else
    (bitTime, bitMask, currentByte, parity)
termination_by time + 1 - bitTime
decreasing_by
  rename_i h
  simp only [BIT_WAIT_TIME, BIT_TIME] at *
  omega

/-- Claim C6's whole description: the loop from the current accumulator
values, then one unconditional extra shift of the mask. -/
def recvBitsClaim (time bitTime bitMask currentByte : Nat) (parity : Bool) :
    Nat × Nat × Nat × Bool :=
  let r := recvBitsClaimInner time bitTime bitMask currentByte parity
  (r.1, r.2.1 <<< 1, r.2.2.1, r.2.2.2)

/-! ## Transmitter helper loops -/

/-- One iteration of the parity `for` loop of the SEND_BIT_0 case: if the
tested data bit is set, toggle bit 8. -/
def parityStep (b mask : Nat) : Nat :=
  if b &&& mask ≠ 0 then b ^^^ 0x100 else b

/-- The parity computation of the SEND_BIT_0 case: the source's `for` loop
over the masks 1, 2, ..., 0x80, unrolled (the loop bound is fixed). -/
def addParityBit (b : Nat) : Nat :=
  parityStep (parityStep (parityStep (parityStep (parityStep (parityStep
    (parityStep (parityStep b 1) 2) 4) 8) 16) 32) 64) 128

/-- The scan loop of the SEND_BIT case: starting from the current mask, count
consecutive set ("1") bits of the byte, adding one BIT_TIME per bit, while
the mask has not passed 0x100.  Returns (mask after the loop, time).  The
loop body runs at most nine times (the mask doubles and starts at a nonzero
value whenever the loop is entered), so a structural fuel of 10 realises the
source's `while`; `sendBitScan_exits` below proves the fuel is never
exhausted mid-loop. -/
def sendBitScanGo : Nat → Nat → Nat → Nat → Nat × Nat
  | 0, _, bitMask, time => (bitMask, time)
  | fuel + 1, cb, bitMask, time =>
    if cb &&& bitMask ≠ 0 ∧ bitMask ≤ 0x100 then
      sendBitScanGo fuel cb (bitMask <<< 1) (time + BIT_TIME)
    else
      (bitMask, time)

/-- The SEND_BIT scan loop (see `sendBitScanGo`). -/
def sendBitScan (cb bitMask time : Nat) : Nat × Nat :=
  sendBitScanGo 10 cb bitMask time

/-! ## ISR building blocks -/

/-- `Bus::idleState`: silence both match channels and go idle. -/
def idleStateFn (s : BusS) : BusS :=
  { s with matchTime := 0xfffe, matchPwm := 0xffff, state := .IDLE, sendAck := 0 }

/-- `Bus::sendNextTelegram` (ISR only): signal completion to the owner of the
current buffer by writing 0 to its first byte (the buffer then leaves the
model), shift the next slot into the current one and reset the retry state.
The ghost counters reset with the slot advance. -/
def sendNextTelegramFn (s : BusS) : BusS :=
  { s with sendCurTelegram := s.sendNextTel, sendNextTel := none,
           sendTries := 0, sendTelegramLen := 0, attempts := 0, flips := 0 }

/-- `Bus::handleTelegram`: decide acknowledgment and telegram disposition,
then arm the wait-before-send timeout, clear the collision flag and enter
SEND_INIT.  The running `checksum` member is declared in the missing header;
its validity test arrives here through the `valid` parameter, so its integer
width does not matter for the modelled behaviour. -/
def handleTelegramFn (env : Env) (valid : Bool) (s : BusS) : BusS :=
  let s0 := { s with sendAck := 0 }
  let s1 :=
    if s0.collision then s0
    else if 8 ≤ s0.nextByteIndex ∧ valid = true then
      let destAddr := (s0.telegram.getD 3 0 <<< 8) ||| s0.telegram.getD 4 0
      let processTel : Bool :=
        if s0.telegram.getD 5 0 &&& 0x80 ≠ 0 then
          decide (destAddr = 0 ∨ 0 ≤ env.indexOfAddr destAddr)
        else
          decide (destAddr = s0.ownAddr)
      if env.statusTL = false then { s0 with telegramLen := s0.nextByteIndex }
      else if processTel then
        { s0 with telegramLen := s0.nextByteIndex, sendAck := SB_BUS_ACK }
      else s0
    else if s0.nextByteIndex = 1 then
      let s2 := { s0 with currentByte := s0.currentByte &&& 0xff }
      if (s2.currentByte = SB_BUS_ACK ∨ 3 < s2.sendTries) ∧ s2.sendCurTelegram ≠ none then
        sendNextTelegramFn s2
      else s2
    else { s0 with telegramLen := 0, sendAck := SB_BUS_NACK }
  { s1 with
      matchTime := if s1.sendAck ≠ 0 then SEND_ACK_WAIT_TIME - PRE_SEND_TIME
                   else SEND_WAIT_TIME - PRE_SEND_TIME,
      collision := false, state := .SEND_INIT }

/-- The RECV_START case: a timeout ends the transmission and hands it to
`handleTelegram`; a capture is the start bit of the next byte. -/
def caseRecvStart (env : Env) (inp : IsrInput) (s : BusS) : BusS :=
  if inp.captureFlag = false then
    handleTelegramFn env (s.valid && (s.checksum == 0)) s
  else
    { s with matchTime := BYTE_TIME, state := .RECV_BYTE,
             currentByte := 0, bitTime := 0, bitMask := 1, parity := true }

/-- The IDLE case: only a capture does anything; it resets the receive
accumulators and falls through into RECV_START. -/
def caseIdle (env : Env) (inp : IsrInput) (s : BusS) : BusS :=
  if inp.captureFlag = false then s
  else
    caseRecvStart env inp
      { s with nextByteIndex := 0, collision := false, checksum := 0xff,
               sendAck := 0, valid := true }

/-- The RECV_BYTE case: sample bits by time difference; on the byte timeout
fold the parity into `valid`, append the byte (truncated to 8 bits by the
store into the byte array) to the telegram, accumulate the checksum and wait
for the next start bit. -/
def caseRecvByte (inp : IsrInput) (s : BusS) : BusS :=
  let timeout := inp.timeFlag
  let time := if timeout then BYTE_TIME else inp.captureVal
  let r := recvBits time s.bitTime s.bitMask s.currentByte s.parity
  let s1 := { s with bitTime := r.1, bitMask := r.2.1,
                     currentByte := r.2.2.1, parity := r.2.2.2 }
  if timeout then
    let s2 := { s1 with valid := s1.valid && s1.parity }
    let s3 :=
      if s2.nextByteIndex < SB_TELEGRAM_SIZE then
        { s2 with
            telegram := s2.telegram.set s2.nextByteIndex (s2.currentByte &&& 0xff),
            checksum := s2.checksum ^^^ s2.currentByte,
            nextByteIndex := s2.nextByteIndex + 1 }
      else s2
    { s3 with state := .RECV_START, matchTime := BIT_TIME * 4 }
  else s1

/-- The SEND_BIT case: scan for the next zero bit, choose SEND_BIT (emit
immediately) or SEND_BIT_WAIT (listen during the skipped one bits), detect
end of byte (mask past 0x200) and end of telegram, and arm PWM and timeout. -/
def caseSendBit (s : BusS) : BusS :=
  let r := sendBitScan s.currentByte s.bitMask BIT_TIME
  let bitMask1 := r.1 <<< 1
  let time1 := r.2
  let st1 : BusState := if time1 ≤ BIT_TIME then .SEND_BIT else .SEND_BIT_WAIT
  let p :=
    if 0x200 < bitMask1 then
      (if s.nextByteIndex < s.sendTelegramLen ∧ s.sendAck = 0 then
         BusState.SEND_BIT_0
       else BusState.SEND_END,
       time1 + BIT_TIME * 3)
    else (st1, time1)
  let pwm := if p.1 = BusState.SEND_END then 0xffff else p.2 - BIT_PULSE_TIME
  { s with bitMask := bitMask1, matchPwm := pwm, matchTime := p.2, state := p.1 }

/-- The SEND_BIT_0 case: load the next outbound byte (the pending ACK byte,
or the next telegram octet, a null dereference if no telegram is current),
fold in the parity bit and fall through into SEND_BIT. -/
def caseSendBit0 (s : BusS) : Except BusFault BusS := do
  let cbs ←
    if s.sendAck ≠ 0 then pure (s.sendAck, s)
    else
      match s.sendCurTelegram with
      | none => Except.error BusFault.nullDeref
      | some tel =>
          pure (tel.getD s.nextByteIndex 0,
                { s with nextByteIndex := s.nextByteIndex + 1 })
  pure (caseSendBit { cbs.2 with currentByte := addParityBit cbs.1, bitMask := 1 })

/-- The SEND_START_BIT case: on a capture, surrender the bus when the timer
counter is still more than 10 usec before the programmed PWM match (someone
else started first) by disarming PWM and re-dispatching the pending capture
through RECV_START; otherwise the edge was our own start bit and the next
byte follows.  Without a capture (timeout: hardware problem) transmission
continues by falling through into SEND_BIT_0. -/
def caseSendStartBit (env : Env) (inp : IsrInput) (s : BusS) :
    Except BusFault BusS :=
  if inp.captureFlag then
    if (inp.timerVal : Int) < (s.matchPwm : Int) - 10 then
      pure (caseRecvStart env inp { s with matchPwm := 0xffff, state := .RECV_START })
    else
      pure { s with state := .SEND_BIT_0 }
  else
    caseSendBit0 s

/-- The repeat-flag inversion of SEND_INIT at sendTries = 1: clear bit 5 of
octet 0 and XOR 0x20 into the checksum octet at index len - 1 (the store
`octet &= ~0x20` on a byte equals masking with 0xdf). -/
def flipRepeat (tel : List Nat) (len : Nat) : List Nat :=
  let t1 := tel.set 0 (tel.getD 0 0 &&& 0xdf)
  t1.set (len - 1) (t1.getD (len - 1) 0 ^^^ SB_TEL_REPEAT_FLAG)

/-- The SEND_INIT case: a pending capture yields to the receiver; otherwise
choose what to emit (the pending ACK, the current telegram - abandoning it
first when more than three tries are used up - or nothing), apply the
repeat-flag inversion on the first retry, and arm the start bit. -/
def caseSendInit (env : Env) (inp : IsrInput) (s : BusS) : Except BusFault BusS :=
  if inp.captureFlag then
    pure (caseIdle env inp { s with state := .IDLE })
  else if s.sendAck ≠ 0 then
    pure { s with sendTelegramLen := 0, matchPwm := PRE_SEND_TIME,
                  matchTime := PRE_SEND_TIME + BIT_PULSE_TIME,
                  nextByteIndex := 0, state := .SEND_START_BIT }
  else do
    let s1 ←
      if 3 < s.sendTries then
        match s.sendCurTelegram with
        | none => Except.error BusFault.nullDeref
        | some _ => pure (sendNextTelegramFn s)
      else pure s
    match s1.sendCurTelegram with
    | some tel =>
        let time := PRE_SEND_TIME + ((tel.getD 0 0 >>> 2) &&& 3) * BIT_TIME
        let len := telegramSize tel + 1
        let s2 := { s1 with sendTelegramLen := len }
        let s3 :=
          if s2.sendTries = 1 then
            { s2 with sendCurTelegram := some (flipRepeat tel len),
                      sendTries := s2.sendTries + 1, flips := s2.flips + 1 }
          else s2
        pure { s3 with matchPwm := time, matchTime := time + BIT_PULSE_TIME,
                       nextByteIndex := 0, state := .SEND_START_BIT }
    | none => pure (idleStateFn s1)

/-- The SEND_BIT_WAIT case: a capture noticeably before the programmed match
is a foreign edge - declare a collision, disarm PWM and become a receiver
mid-byte; otherwise it was our own zero pulse. -/
def caseSendBitWait (inp : IsrInput) (s : BusS) : BusS :=
  if (inp.captureVal : Int) < (s.matchPwm : Int) - BIT_WAIT_TIME then
    { s with matchPwm := 0xffff, state := .RECV_BYTE, collision := true }
  else
    { s with state := .SEND_BIT }

/-- The SEND_END case: arm the inter-frame timeout; an ACK send clears the
pending ACK, a telegram send counts one completed try (the ghost attempt
counter moves with it). -/
def caseSendEnd (s : BusS) : BusS :=
  let s1 := { s with matchTime := SEND_WAIT_TIME }
  let s2 :=
    if s1.sendAck ≠ 0 then { s1 with sendAck := 0 }
    else { s1 with sendTries := s1.sendTries + 1, attempts := s1.attempts + 1 }
  { s2 with state := .SEND_WAIT }

/-- The SEND_WAIT case: ignore captures that arrive before the ACK window;
otherwise fall through into SEND_INIT (which also hands a pending capture to
the receive path). -/
def caseSendWait (env : Env) (inp : IsrInput) (s : BusS) : Except BusFault BusS :=
  if inp.captureFlag ∧ inp.captureVal < SEND_ACK_WAIT_TIME then
    pure s
  else
    caseSendInit env inp { s with state := .SEND_INIT }

/-- `Bus::timerInterruptHandler`: dispatch on the current state.  The
source's fall-throughs and `goto STATE_SWITCH` re-dispatches are realised by
the case functions calling each other directly. -/
def isrStep (env : Env) (inp : IsrInput) (s : BusS) : Except BusFault BusS :=
  match s.state with
  | .IDLE => pure (caseIdle env inp s)
  | .RECV_START => pure (caseRecvStart env inp s)
  | .RECV_BYTE => pure (caseRecvByte inp s)
  | .SEND_INIT => caseSendInit env inp s
  | .SEND_START_BIT => caseSendStartBit env inp s
  | .SEND_BIT_0 => caseSendBit0 s
  | .SEND_BIT => pure (caseSendBit s)
  | .SEND_BIT_WAIT => pure (caseSendBitWait inp s)
  | .SEND_END => pure (caseSendEnd s)
  | .SEND_WAIT => caseSendWait env inp s

/-! ## Foreground API and reachability -/

/-- Installation part of `Bus::sendTelegram`: after the spin wait has
observed a free next slot, prepare the telegram and put it into the current
slot if that is empty, else into the next slot (under the spin wait
guarantee `sendNextTel = none` the fatalError overflow branch cannot run). -/
def installTelegram (s : BusS) (tel : List Nat) (length : Nat) : BusS :=
  let t := prepareTelegram s.ownAddr tel length
  if s.sendCurTelegram = none then { s with sendCurTelegram := some t }
  else { s with sendNextTel := some t }

/-- The kick-start of `Bus::sendTelegram` (done with interrupts disabled):
if the bus is idle, reset the retry counter, enter SEND_INIT and arm a one
usec timeout so the ISR fires immediately. -/
def kickStart (s : BusS) : BusS :=
  { s with sendTries := 0, state := .SEND_INIT, matchTime := 1 }

/-- The state after `Bus::begin`: own address loaded, machine idle, the other
members at their zero-initialised (static storage) values. -/
def initialState (ownAddr : Nat) : BusS :=
  { state := .IDLE, telegram := List.replicate SB_TELEGRAM_SIZE 0,
    telegramLen := 0, nextByteIndex := 0, currentByte := 0, bitMask := 0,
    bitTime := 0, parity := false, valid := false, checksum := 0,
    collision := false, ownAddr := ownAddr, sendCurTelegram := none,
    sendNextTel := none, sendTelegramLen := 0, sendTries := 0, sendAck := 0,
    matchPwm := 0xffff, matchTime := 0xfffe, attempts := 0, flips := 0 }

/-- States reachable from `begin` under ISR events (with arbitrary input
values), the foreground telegram installation (guarded by the spin wait on a
free next slot) and the foreground idle kick-start.  The install rule runs
the whole slot installation of `Bus::sendTelegram` as one transition.  That
is exact for the current-slot store (with a null current slot no ISR path
writes it, see `ReachableI`), but coarse for the next-slot store: the source
keeps interrupts enabled across the test of the current slot and the store
into the next slot, and `ReachableI` below refines this relation to
instruction granularity to expose the interleavings this rule hides. -/
inductive Reachable (env : Env) : BusS → Prop where
  | init (ownAddr : Nat) : Reachable env (initialState ownAddr)
  | isr {s s' : BusS} (inp : IsrInput) :
      Reachable env s → isrStep env inp s = .ok s' → Reachable env s'
  | install {s : BusS} (tel : List Nat) (length : Nat) :
      Reachable env s → s.sendNextTel = none →
      Reachable env (installTelegram s tel length)
  | kick {s : BusS} :
      Reachable env s → s.state = .IDLE → Reachable env (kickStart s)

/-! ## A concrete quiet-bus send run

The driver below replays the events a quiet bus produces while the device
transmits: in SEND_START_BIT and SEND_BIT_WAIT the device captures its own
pulse at the programmed PWM match, in every other state the armed timeout
fires.  No foreign traffic and no acknowledgment ever arrives. -/

/-- The next interrupt event on a quiet bus (own pulses echo back, timeouts
otherwise). -/
def autoInput (s : BusS) : IsrInput :=
  if s.state = BusState.SEND_START_BIT ∨ s.state = BusState.SEND_BIT_WAIT then
    { captureFlag := true, timeFlag := false, captureVal := s.matchPwm,
      timerVal := s.matchPwm }
  else
    { captureFlag := false, timeFlag := true, captureVal := 0, timerVal := 0 }

/-- One quiet-bus ISR invocation (faults cannot occur on this run; they would
leave the state unchanged). -/
def stepAuto (env : Env) (s : BusS) : BusS :=
  match isrStep env (autoInput s) s with
  | .ok s1 => s1
  | .error _ => s

/-- Iterated quiet-bus run. -/
def runAuto (env : Env) : Nat → BusS → BusS
  | 0, s => s
  | n + 1, s => runAuto env n (stepAuto env s)

/-- A concrete environment: transport layer enabled, empty group table. -/
def envEmpty : Env := { statusTL := true, indexOfAddr := fun _ => -1 }

/-- A freshly accepted eight-octet telegram of all zero bytes (length 7 plus
checksum), installed and kick-started from the idle initial state. -/
def sendStart : BusS :=
  kickStart (installTelegram (initialState 0) (List.replicate 8 0) 7)

/-! ## Instruction-granular installation

`Bus::sendTelegram` keeps interrupts enabled across the slot installation
(only the later kick-start sits between noInterrupts and interrupts), so a
timer interrupt may run between the test of the current slot and the store
into the next slot.  The refinement below splits the installation at exactly
that point. -/

/-- The foreground phase of the slot installation: either no installation is
in flight, or the foreground has passed the current-slot test (finding it
occupied, hence choosing the next slot) with the prepared telegram in hand
and the store into the next slot still pending. -/
inductive FgPhase where
  | idle
  | pendingNext (tel : List Nat)
deriving DecidableEq, Repr

/-- A system state for the interleaved semantics: the bus object plus the
foreground installation phase. -/
structure SysS where
  bus : BusS
  fg : FgPhase
deriving DecidableEq, Repr

/-- Reachability with the slot installation split at instruction
granularity.  ISR events may fire in any foreground phase.  The two
foreground stores that remain single transitions are justified against the
source: with a null current slot no ISR path writes the current slot (the
abandon path of SEND_INIT needs sendTries above 3 and the 1-byte path of
handleTelegram tests the slot first), so the test-then-store of installCur
cannot be invalidated in between; and the only ISR write to the next slot
nulls it, so a true result of the `!sendNextTel` test in installNextStore
cannot be invalidated either.  The test that CAN be invalidated - current
slot occupied, so store into the next slot later - is split into
installNextTest and installNextStore with the pending phase in between.
The kick-start (under noInterrupts in the source, hence one transition)
follows the installation in the same call, in phase idle. -/
inductive ReachableI (env : Env) : SysS → Prop where
  | init (ownAddr : Nat) : ReachableI env ⟨initialState ownAddr, FgPhase.idle⟩
  | isr {b b2 : BusS} {fg : FgPhase} (inp : IsrInput) :
      ReachableI env ⟨b, fg⟩ → isrStep env inp b = .ok b2 →
      ReachableI env ⟨b2, fg⟩
  | installCur {b : BusS} (tel : List Nat) (length : Nat) :
      ReachableI env ⟨b, FgPhase.idle⟩ → b.sendNextTel = none →
      b.sendCurTelegram = none →
      ReachableI env
        ⟨{ b with
             sendCurTelegram := some (prepareTelegram b.ownAddr tel length) },
          FgPhase.idle⟩
  | installNextTest {b : BusS} (tel : List Nat) (length : Nat) :
      ReachableI env ⟨b, FgPhase.idle⟩ → b.sendNextTel = none →
      b.sendCurTelegram ≠ none →
      ReachableI env
        ⟨b, FgPhase.pendingNext (prepareTelegram b.ownAddr tel length)⟩
  | installNextStore {b : BusS} {tel : List Nat} :
      ReachableI env ⟨b, FgPhase.pendingNext tel⟩ → b.sendNextTel = none →
      ReachableI env ⟨{ b with sendNextTel := some tel }, FgPhase.idle⟩
  | kick {b : BusS} :
      ReachableI env ⟨b, FgPhase.idle⟩ → b.state = BusState.IDLE →
      ReachableI env ⟨kickStart b, FgPhase.idle⟩

/-! ## Further definitions used by the theorems -/

instance : DecidableEq (Except BusFault BusS) := fun a b =>
  match a, b with
  | .ok x, .ok y => decidable_of_iff (x = y) (by simp)
  | .error x, .error y => decidable_of_iff (x = y) (by simp)
  | .ok _, .error _ => isFalse (by simp)
  | .error _, .ok _ => isFalse (by simp)

/-- Number of set bits among bits 0..8 of a value - the nine transmitted
bits (start and stop bits are fixed and carry no data). -/
def popCnt9 (n : Nat) : Nat :=
  (n >>> 0) % 2 + (n >>> 1) % 2 + (n >>> 2) % 2 + (n >>> 3) % 2 +
  (n >>> 4) % 2 + (n >>> 5) % 2 + (n >>> 6) % 2 + (n >>> 7) % 2 +
  (n >>> 8) % 2

/-- The destination acceptance test of handleTelegram: group addressed
(octet 5 bit 7 set) to group zero or a group known to the address table, or
individually addressed to the own address. -/
def acceptsDest (env : Env) (s : BusS) : Bool :=
  let destAddr := (s.telegram.getD 3 0 <<< 8) ||| s.telegram.getD 4 0
  if s.telegram.getD 5 0 &&& 0x80 ≠ 0 then
    decide (destAddr = 0 ∨ 0 ≤ env.indexOfAddr destAddr)
  else
    decide (destAddr = s.ownAddr)

/-- A concrete promiscuous environment (BCU_STATUS_TL clear). -/
def envPromisc : Env := { statusTL := false, indexOfAddr := fun _ => -1 }

/-- A concrete received state: a valid eight-octet telegram individually
addressed to the own address 0x1101. -/
def recvdState : BusS :=
  { initialState 0x1101 with
      nextByteIndex := 8,
      telegram := [0xBC, 0x11, 0x01, 0x11, 0x01, 0x60, 0x00, 0x00] ++
        List.replicate 15 0 }

/-! ## The inductive invariant of the transceiver -/

/-- The states of an in-flight telegram transmission attempt (the emission
of an acknowledgment byte is excluded by requiring a clear sendAck). -/
def inAttempt (s : BusS) : Prop :=
  (s.state = BusState.SEND_START_BIT ∨ s.state = BusState.SEND_BIT_0 ∨
   s.state = BusState.SEND_BIT ∨ s.state = BusState.SEND_BIT_WAIT ∨
   s.state = BusState.SEND_END) ∧ s.sendAck = 0

instance (s : BusS) : Decidable (inAttempt s) := by
  unfold inAttempt
  infer_instance

/-- The inductive invariant: the queue shape (claim C5), the coupling of the
retry counter to the send slot (claim C10), the retry/attempt accounting
(claim C4), and the single repeat-flag inversion (claim C3). -/
structure Inv (s : BusS) : Prop where
  queue : s.sendNextTel ≠ none → s.sendCurTelegram ≠ none
  triesZero : s.sendCurTelegram = none → s.sendTries = 0
  flipsZero : s.sendCurTelegram = none → s.flips = 0
  attemptsZero : s.sendCurTelegram = none → s.attempts = 0
  attemptCur : inAttempt s → s.sendCurTelegram ≠ none
  attemptTries : inAttempt s → s.sendTries ≤ 3
  attemptsLe : s.attempts ≤ 3
  countTries : s.attempts = 0 ∨ s.attempts + 1 ≤ s.sendTries ∨
      (s.attempts = 1 ∧ s.sendTries = 1 ∧ ¬ inAttempt s)
  flipsLe : s.flips ≤ 1
  flipTries : s.flips = 1 → 2 ≤ s.sendTries
  idleZero : s.state = BusState.IDLE →
      s.sendTries = 0 ∧ s.flips = 0 ∧ s.attempts = 0

/-! ## Loop-exit certificates for the fuelled SEND_BIT scan -/

/-- Fuel adequacy for `sendBitScan`: the returned mask always fails the
loop guard, i.e. the structural fuel of 10 never runs out while the C loop
would still iterate. -/
theorem sendBitScanGo_exits (fuel cb bitMask time : Nat)
    (h : 0x100 < bitMask <<< fuel ∨ bitMask = 0) :
    cb &&& (sendBitScanGo fuel cb bitMask time).1 = 0 ∨
      ¬ (sendBitScanGo fuel cb bitMask time).1 ≤ 0x100 := by
  induction fuel generalizing bitMask time with
  | zero =>
    simp only [sendBitScanGo]
    rcases h with h | h
    · simp only [Nat.shiftLeft_eq, pow_zero, mul_one] at h
      omega
    · subst h
      exact Or.inl (Nat.and_zero cb)
  | succ n ih =>
    simp only [sendBitScanGo]
    by_cases hg : cb &&& bitMask ≠ 0 ∧ bitMask ≤ 0x100
    · rw [if_pos hg]
      apply ih
      rcases h with h | h
      · left
        have : bitMask <<< (n + 1) = (bitMask <<< 1) <<< n := by
          simp [Nat.shiftLeft_eq, pow_succ, Nat.mul_assoc, Nat.mul_comm]
        rw [this] at h
        exact h
      · exact absurd (by rw [h]; exact Nat.and_zero cb) hg.1
    · rw [if_neg hg]
      rcases Decidable.not_and_iff_or_not.mp hg with h | h
      · exact Or.inl (by simpa using h)
      · exact Or.inr h

theorem sendBitScan_exits (cb bitMask time : Nat) :
    cb &&& (sendBitScan cb bitMask time).1 = 0 ∨
      ¬ (sendBitScan cb bitMask time).1 ≤ 0x100 := by
  apply sendBitScanGo_exits
  rcases Nat.eq_zero_or_pos bitMask with h | h
  · exact Or.inr h
  · left
    have : 1024 ≤ bitMask * 1024 := Nat.le_mul_of_pos_left 1024 h
    simpa [Nat.shiftLeft_eq] using by omega

/-! ## Helper lemmas about bytes and XOR folds -/

theorem and_byte_of_lt (x : Nat) (h : x < 256) : x &&& 0xff = x := by
  simpa using Nat.and_pow_two_sub_one_of_lt_two_pow (x := x) (n := 8) h

theorem and_byte_lt (x : Nat) : x &&& 0xff < 256 :=
  Nat.lt_succ_of_le (Nat.and_le_right)

theorem getD_set_ne_nat (l : List Nat) (i j a d : Nat) (h : i ≠ j) :
    (l.set i a).getD j d = l.getD j d := by
  simp [List.getD_eq_getElem?_getD, List.getElem?_set_ne h]

theorem getD_set_self_nat (l : List Nat) (i a d : Nat) (h : i < l.length) :
    (l.set i a).getD i d = a := by
  simp [List.getD_eq_getElem?_getD, List.getElem?_set_self, h]

theorem getD_lt_of_forall_mem (l : List Nat) (i d : Nat) (hd : d < 256)
    (h : ∀ b ∈ l, b < 256) : l.getD i d < 256 := by
  rcases Nat.lt_or_ge i l.length with hi | hi
  · rw [List.getD_eq_getElem l d hi]
    exact h _ (List.getElem_mem hi)
  · rw [List.getD_eq_default l d hi]
    exact hd

theorem xorUpTo_lt (tel : List Nat) (h : ∀ b ∈ tel, b < 256) :
    ∀ n, xorUpTo tel n < 256 := by
  intro n
  induction n with
  | zero => simp [xorUpTo]
  | succ k ih =>
    have hb : tel.getD k 0 < 256 := getD_lt_of_forall_mem tel k 0 (by omega) h
    simpa [xorUpTo] using
      Nat.xor_lt_two_pow (n := 8) ih hb

/-- The checksum loop of the source computes the inverted XOR of the first n
octets: a 0xff-seeded fold, with the byte truncations being no-ops on byte
inputs. -/
theorem calcChecksum_eq (tel : List Nat) (h : ∀ b ∈ tel, b < 256) :
    ∀ n, calcChecksum tel n = 0xff ^^^ xorUpTo tel n := by
  intro n
  induction n with
  | zero => simp [calcChecksum, xorUpTo]
  | succ k ih =>
    have hb : tel.getD k 0 < 256 := getD_lt_of_forall_mem tel k 0 (by omega) h
    have hx : xorUpTo tel k < 256 := xorUpTo_lt tel h k
    have hff : (0xff : Nat) < 256 := by omega
    have h1 : (0xff : Nat) ^^^ xorUpTo tel k < 256 := by
      simpa using Nat.xor_lt_two_pow (n := 8) hff hx
    have h2 : (0xff ^^^ xorUpTo tel k) ^^^ tel.getD k 0 < 256 := by
      simpa using Nat.xor_lt_two_pow (n := 8) h1 hb
    calc calcChecksum tel (k + 1)
        = (calcChecksum tel k ^^^ tel.getD k 0) &&& 0xff := rfl
      _ = ((0xff ^^^ xorUpTo tel k) ^^^ tel.getD k 0) &&& 0xff := by rw [ih]
      _ = (0xff ^^^ xorUpTo tel k) ^^^ tel.getD k 0 := and_byte_of_lt _ h2
      _ = 0xff ^^^ (xorUpTo tel k ^^^ tel.getD k 0) := Nat.xor_assoc _ _ _
      _ = 0xff ^^^ xorUpTo tel (k + 1) := rfl

theorem xorUpTo_congr (l1 l2 : List Nat) (n : Nat)
    (h : ∀ i, i < n → l1.getD i 0 = l2.getD i 0) :
    xorUpTo l1 n = xorUpTo l2 n := by
  induction n with
  | zero => rfl
  | succ k ih =>
    have hk := h k (by omega)
    have := ih (fun i hi => h i (by omega))
    simp only [xorUpTo]
    rw [this, hk]

/-- C1, counterexample: for the all-zero telegram of length 7 (eight octets
transmitted) and own address 0, the plain XOR of octets 0..7 after
`prepareTelegram` is 0xff, not 0 - the checksum accumulator is seeded with
0xff, so the inclusive XOR of the frame reproduces the seed, not zero. -/
theorem checksum_xor_counterexample :
    xorUpTo (prepareTelegram 0 (List.replicate 8 0) 7) 8 = 0xff ∧
      xorUpTo (prepareTelegram 0 (List.replicate 8 0) 7) 8 ≠ 0 := by
  constructor
  · decide
  · decide

/-- C1, amended: after `prepareTelegram` on a buffer of bytes, the XOR of
octets 0..L inclusive (octet L being the stored checksum) equals 0xff -
equivalently, the receiver's 0xff-seeded running XOR over those octets ends
at zero, which is exactly the check `handleTelegram` receives. -/
theorem checksum_law_amended (ownAddr : Nat) (tel : List Nat) (L : Nat)
    (hbytes : ∀ b ∈ tel, b < 256) (hlen : L < tel.length) :
    xorUpTo (prepareTelegram ownAddr tel L) (L + 1) = 0xff ∧
      0xff ^^^ xorUpTo (prepareTelegram ownAddr tel L) (L + 1) = 0 := by
  have hstamped : ∀ b ∈ (tel.set 1 ((ownAddr >>> 8) &&& 0xff)).set 2 (ownAddr &&& 0xff),
      b < 256 := by
    intro b hb
    rcases List.mem_or_eq_of_mem_set hb with hb1 | hb1
    · rcases List.mem_or_eq_of_mem_set hb1 with hb2 | hb2
      · exact hbytes b hb2
      · subst hb2; exact and_byte_lt _
    · subst hb1; exact and_byte_lt _
  set t2 := (tel.set 1 ((ownAddr >>> 8) &&& 0xff)).set 2 (ownAddr &&& 0xff) with ht2
  have hlen2 : L < t2.length := by simpa [ht2] using hlen
  have hprep : prepareTelegram ownAddr tel L = t2.set L (calcChecksum t2 L) := rfl
  have hcongr : xorUpTo (t2.set L (calcChecksum t2 L)) L = xorUpTo t2 L := by
    apply xorUpTo_congr
    intro i hi
    exact getD_set_ne_nat t2 L i _ 0 (by omega)
  have hgetL : (t2.set L (calcChecksum t2 L)).getD L 0 = calcChecksum t2 L :=
    getD_set_self_nat t2 L _ 0 hlen2
  have hmain : xorUpTo (prepareTelegram ownAddr tel L) (L + 1) = 0xff := by
    calc xorUpTo (prepareTelegram ownAddr tel L) (L + 1)
        = xorUpTo (t2.set L (calcChecksum t2 L)) L ^^^
            (t2.set L (calcChecksum t2 L)).getD L 0 := by rw [hprep]; rfl
      _ = xorUpTo t2 L ^^^ calcChecksum t2 L := by rw [hcongr, hgetL]
      _ = xorUpTo t2 L ^^^ (0xff ^^^ xorUpTo t2 L) := by
            rw [calcChecksum_eq t2 hstamped]
      _ = 0xff := by
            rw [Nat.xor_comm (0xff) (xorUpTo t2 L), ← Nat.xor_assoc,
                Nat.xor_self, Nat.zero_xor]
  exact ⟨hmain, by rw [hmain]; exact Nat.xor_self 0xff⟩

/-- Witness for `checksum_law_amended` at a concrete telegram. -/
theorem checksum_law_amended_witness :
    xorUpTo (prepareTelegram 0x1145 (List.replicate 9 0x40) 7) 8 = 0xff ∧
      0xff ^^^ xorUpTo (prepareTelegram 0x1145 (List.replicate 9 0x40) 7) 8 = 0 :=
  checksum_law_amended 0x1145 (List.replicate 9 0x40) 7
    (by decide) (by decide)

/-! ## C6: the RECV_BYTE bit-sampling loop -/

/-- The claim's loop and the source's inner while are the same recursion. -/
theorem recvBitsClaimInner_eq_aux (n : Nat) :
    ∀ time bitTime bitMask currentByte : Nat, ∀ parity : Bool,
      time + 1 - bitTime ≤ n →
      recvBitsClaimInner time bitTime bitMask currentByte parity =
        recvBitsInner time bitTime bitMask currentByte parity := by
  induction n with
  | zero =>
    intro t bt m cb p hb
    have hc : ¬ (bt + BIT_WAIT_TIME ≤ t ∧ m ≤ 0x100) := by
      simp only [BIT_WAIT_TIME]
      omega
    rw [recvBitsClaimInner, recvBitsInner, if_neg hc, if_neg hc]
  | succ k ih =>
    intro t bt m cb p hb
    by_cases hc : bt + BIT_WAIT_TIME ≤ t ∧ m ≤ 0x100
    · rw [recvBitsClaimInner, recvBitsInner, if_pos hc, if_pos hc]
      apply ih
      have := hc.1
      simp only [BIT_WAIT_TIME] at this
      simp only [BIT_TIME]
      omega
    · rw [recvBitsClaimInner, recvBitsInner, if_neg hc, if_neg hc]

theorem recvBitsClaimInner_eq (time bitTime bitMask currentByte : Nat) (parity : Bool) :
    recvBitsClaimInner time bitTime bitMask currentByte parity =
      recvBitsInner time bitTime bitMask currentByte parity :=
  recvBitsClaimInner_eq_aux (time + 1 - bitTime) time bitTime bitMask currentByte
    parity (Nat.le_refl _)

/-- C6, counterexample: a capture exactly one bit cell after the last zero
sample (time 104, bitTime 0, mask 1).  The source ORs no bit into
currentByte (the capture itself is the next zero bit); the loop as the claim
describes it runs one iteration and ORs one bit, so the number of bits ORed
does not equal the number of iterations the claim's description yields. -/
theorem recv_bit_loop_counterexample :
    recvBits 104 0 1 0 true = (104, 2, 0, true) ∧
      recvBitsClaim 104 0 1 0 true = (104, 4, 1, false) ∧
      recvBits 104 0 1 0 true ≠ recvBitsClaim 104 0 1 0 true := by
  have ha : recvBitsInner 104 104 1 0 true = (104, 1, 0, true) := by
    rw [recvBitsInner]
    norm_num [BIT_WAIT_TIME]
  have hb : recvBitsClaimInner 104 104 2 1 false = (104, 2, 1, false) := by
    rw [recvBitsClaimInner]
    norm_num [BIT_WAIT_TIME]
  have hc : recvBitsClaimInner 104 0 1 0 true = (104, 2, 1, false) := by
    rw [recvBitsClaimInner]
    norm_num [BIT_WAIT_TIME, BIT_TIME, Nat.shiftLeft_eq, hb]
  have h1 : recvBits 104 0 1 0 true = (104, 2, 0, true) := by
    rw [recvBits]
    norm_num [BIT_WAIT_TIME, BIT_TIME, Nat.shiftLeft_eq, ha]
  have h2 : recvBitsClaim 104 0 1 0 true = (104, 4, 1, false) := by
    rw [recvBitsClaim]
    norm_num [Nat.shiftLeft_eq, hc]
  refine ⟨h1, h2, ?_⟩
  rw [h1, h2]
  decide

/-- C6, amended: the RECV_BYTE handler consumes bit cells as the claim's
loop describes only after first advancing `bitTime` by one BIT_TIME without
ORing a bit, and only when the event time passes the initial threshold at
all (otherwise nothing changes, and in particular the mask is not advanced);
the number of bits ORed equals the number of iterations of that inner loop. -/
theorem recv_bit_loop_amended (time bitTime bitMask currentByte : Nat) (parity : Bool) :
    recvBits time bitTime bitMask currentByte parity =
      (if bitTime + BIT_WAIT_TIME ≤ time then
        recvBitsClaim time (bitTime + BIT_TIME) bitMask currentByte parity
      else (bitTime, bitMask, currentByte, parity)) := by
  unfold recvBits recvBitsClaim
  split
  · rw [recvBitsClaimInner_eq]
  · rfl

/-! ## C7: the transmit parity bit -/

/-- C7, counterexample: the ACK byte 0xCC (four set bits) receives parity
bit 8 = 0 from the XOR fold of SEND_BIT_0, so the nine transmitted bits of
currentByte contain four set bits - an even number, not an odd one as the
claim states. -/
theorem parity_law_counterexample :
    addParityBit 0xCC = 0xCC ∧ popCnt9 (addParityBit 0xCC) = 4 ∧
      ¬ popCnt9 (addParityBit 0xCC) % 2 = 1 := by decide

set_option maxRecDepth 4000 in
/-- C7, amended: for every byte loaded in SEND_BIT_0, the computed bit 8 is
the XOR of bits 0..7, so the nine transmitted bits of currentByte (bits
0..8) together contain an even number of set bits - equivalently an odd
number of zero bits, the dominant pulses on the wire. -/
theorem parity_law_amended (b : Nat) (h : b < 256) :
    popCnt9 (addParityBit b) % 2 = 0 ∧
      (9 - popCnt9 (addParityBit b)) % 2 = 1 := by revert h; revert b; decide

/-- Witness for `parity_law_amended` at the ACK byte. -/
theorem parity_law_amended_witness :
    popCnt9 (addParityBit 0xCC) % 2 = 0 ∧
      (9 - popCnt9 (addParityBit 0xCC)) % 2 = 1 :=
  parity_law_amended 0xCC (by decide)

/-! ## C8: collision on the start bit -/

/-- C8, counterexample: in SEND_START_BIT with the PWM match programmed at
104, a capture whose captured edge time is 20 - 84 usec before the match,
far below the 10 usec margin, so the claim requires a surrender - but whose
interrupt is handled when the free-running counter already reads 100: the
source compares the counter `timer.value()`, not the capture register, finds
100 not below 104 - 10 = 94, and proceeds to SEND_BIT_0 with the PWM match
still armed at 104. -/
theorem send_start_bit_counterexample :
    (20 : Int) < (104 : Int) - 10 ∧
    isrStep envEmpty
      { captureFlag := true, timeFlag := false, captureVal := 20, timerVal := 100 }
      { initialState 0 with state := BusState.SEND_START_BIT, matchPwm := 104,
                            sendCurTelegram := some (List.replicate 8 0) } =
      .ok { initialState 0 with state := BusState.SEND_BIT_0, matchPwm := 104,
                                sendCurTelegram := some (List.replicate 8 0) } := by
  decide

/-- C8, amended: in SEND_START_BIT, a capture surrenders the bus exactly
when the free-running counter value read at handling time (not the captured
edge time) is below the programmed PWM match minus 10: then PWM is disarmed
(match 0xffff) and the still-pending capture re-dispatches through
RECV_START, landing in byte reception; otherwise the capture leads to
SEND_BIT_0. -/
theorem send_start_bit_amended (env : Env) (inp : IsrInput) (s : BusS)
    (hstate : s.state = BusState.SEND_START_BIT) (hcap : inp.captureFlag = true) :
    ((inp.timerVal : Int) < (s.matchPwm : Int) - 10 →
      isrStep env inp s =
        .ok { s with
                matchPwm := 0xffff, state := BusState.RECV_BYTE,
                matchTime := BYTE_TIME, currentByte := 0, bitTime := 0,
                bitMask := 1, parity := true }) ∧
    (¬ (inp.timerVal : Int) < (s.matchPwm : Int) - 10 →
      isrStep env inp s = .ok { s with state := BusState.SEND_BIT_0 }) := by
  constructor
  · intro h
    simp [isrStep, hstate, caseSendStartBit, hcap, h, caseRecvStart, pure,
      Except.pure]
  · intro h
    simp [isrStep, hstate, caseSendStartBit, hcap, h, pure, Except.pure]

/-- Witness for `send_start_bit_amended` at a concrete surrendering state. -/
theorem send_start_bit_amended_witness :
    (((20 : Nat) : Int) < ((104 : Nat) : Int) - 10 →
      isrStep envEmpty
        { captureFlag := true, timeFlag := false, captureVal := 20, timerVal := 20 }
        { initialState 0 with state := BusState.SEND_START_BIT, matchPwm := 104 } =
        .ok { initialState 0 with
                state := BusState.RECV_BYTE, matchPwm := 0xffff,
                matchTime := BYTE_TIME, currentByte := 0, bitTime := 0,
                bitMask := 1, parity := true }) ∧
    (¬ ((20 : Nat) : Int) < ((104 : Nat) : Int) - 10 →
      isrStep envEmpty
        { captureFlag := true, timeFlag := false, captureVal := 20, timerVal := 20 }
        { initialState 0 with state := BusState.SEND_START_BIT, matchPwm := 104 } =
        .ok { initialState 0 with state := BusState.SEND_BIT_0, matchPwm := 104 }) :=
  send_start_bit_amended envEmpty
    { captureFlag := true, timeFlag := false, captureVal := 20, timerVal := 20 }
    { initialState 0 with state := BusState.SEND_START_BIT, matchPwm := 104 }
    rfl rfl

/-! ## C9: collision flag in handleTelegram -/

/-- C9: with the collision flag set, handleTelegram discards the received
bytes: the published length and the telegram buffer stay unchanged and no
ACK or NACK is armed (sendAck ends 0); and in every case handleTelegram
clears the collision flag and enters SEND_INIT. -/
theorem collision_discard (env : Env) (v : Bool) (s : BusS)
    (h : s.collision = true) :
    (handleTelegramFn env v s).telegramLen = s.telegramLen ∧
    (handleTelegramFn env v s).telegram = s.telegram ∧
    (handleTelegramFn env v s).sendAck = 0 ∧
    (∀ s2 : BusS, (handleTelegramFn env v s2).collision = false ∧
      (handleTelegramFn env v s2).state = BusState.SEND_INIT) := by
  refine ⟨?_, ?_, ?_, ?_⟩
  · simp [handleTelegramFn, h]
  · simp [handleTelegramFn, h]
  · simp [handleTelegramFn, h]
  · intro s2
    constructor
    · simp [handleTelegramFn]
    · simp [handleTelegramFn]

/-- Witness for `collision_discard` at a concrete collided reception. -/
theorem collision_discard_witness :
    (handleTelegramFn envEmpty true
        { initialState 0 with collision := true, nextByteIndex := 8 }).telegramLen =
      ({ initialState 0 with collision := true, nextByteIndex := 8 } : BusS).telegramLen ∧
    (handleTelegramFn envEmpty true
        { initialState 0 with collision := true, nextByteIndex := 8 }).telegram =
      ({ initialState 0 with collision := true, nextByteIndex := 8 } : BusS).telegram ∧
    (handleTelegramFn envEmpty true
        { initialState 0 with collision := true, nextByteIndex := 8 }).sendAck = 0 ∧
    (∀ s2 : BusS, (handleTelegramFn envEmpty true s2).collision = false ∧
      (handleTelegramFn envEmpty true s2).state = BusState.SEND_INIT) :=
  collision_discard envEmpty true
    { initialState 0 with collision := true, nextByteIndex := 8 } rfl

/-! ## C2: the own-address filter and the promiscuous mode -/

/-- C2, counterexample: with promiscuous on (BCU_STATUS_TL clear), a valid
telegram individually addressed to the own address is published
(telegramLen = 8) but no ACK is armed - the source skips the ACK entirely in
promiscuous mode, so the ACK policy is not unchanged for accepted
telegrams. -/
theorem own_address_filter_counterexample :
    acceptsDest envPromisc recvdState = true ∧
    (handleTelegramFn envPromisc true recvdState).telegramLen = 8 ∧
    (handleTelegramFn envPromisc true recvdState).sendAck = 0 ∧
    (handleTelegramFn envPromisc true recvdState).sendAck ≠ SB_BUS_ACK := by
  decide

/-- C2, amended: for a valid received telegram of at least 8 octets and no
collision: with promiscuous off (BCU_STATUS_TL set) an ACK is armed if and
only if the destination is accepted (individual and equal to the own
address, or group and zero-or-known), and an accepted telegram is published;
with promiscuous on (BCU_STATUS_TL clear) the telegram is always published
and no ACK is armed, even for an accepted destination. -/
theorem own_address_filter_amended (env : Env) (s : BusS)
    (hcol : s.collision = false) (hlen : 8 ≤ s.nextByteIndex) :
    (env.statusTL = true →
      ((handleTelegramFn env true s).sendAck = SB_BUS_ACK ↔
        acceptsDest env s = true) ∧
      (acceptsDest env s = true →
        (handleTelegramFn env true s).telegramLen = s.nextByteIndex)) ∧
    (env.statusTL = false →
      (handleTelegramFn env true s).sendAck = 0 ∧
      (handleTelegramFn env true s).telegramLen = s.nextByteIndex) := by
  constructor
  · intro htl
    by_cases hacc : acceptsDest env s = true
    · constructor
      · simp [handleTelegramFn, hcol, hlen, htl, acceptsDest] at hacc ⊢
        simp [hacc, SB_BUS_ACK]
      · intro _
        simp [handleTelegramFn, hcol, hlen, htl, acceptsDest] at hacc ⊢
        simp [hacc]
    · constructor
      · simp [handleTelegramFn, hcol, hlen, htl, acceptsDest] at hacc ⊢
        simp [hacc, SB_BUS_ACK]
      · intro hacc2
        exact absurd hacc2 hacc
  · intro htl
    constructor
    · simp [handleTelegramFn, hcol, hlen, htl]
    · simp [handleTelegramFn, hcol, hlen, htl]

/-- Witness for `own_address_filter_amended` at a concrete accepted
reception with the transport layer enabled. -/
theorem own_address_filter_amended_witness :
    (envEmpty.statusTL = true →
      ((handleTelegramFn envEmpty true recvdState).sendAck = SB_BUS_ACK ↔
        acceptsDest envEmpty recvdState = true) ∧
      (acceptsDest envEmpty recvdState = true →
        (handleTelegramFn envEmpty true recvdState).telegramLen =
          recvdState.nextByteIndex)) ∧
    (envEmpty.statusTL = false →
      (handleTelegramFn envEmpty true recvdState).sendAck = 0 ∧
      (handleTelegramFn envEmpty true recvdState).telegramLen =
        recvdState.nextByteIndex) :=
  own_address_filter_amended envEmpty recvdState rfl (by decide)

/-- Any state that keeps the send-queue core (slots, counters) of an
invariant state and sits in a receive-side or wait state inherits the
invariant. -/
theorem inv_of_core {s s2 : BusS} (h : Inv s)
    (hc : s2.sendCurTelegram = s.sendCurTelegram)
    (hn : s2.sendNextTel = s.sendNextTel)
    (ht : s2.sendTries = s.sendTries)
    (ha : s2.attempts = s.attempts)
    (hf : s2.flips = s.flips)
    (hs : s2.state = BusState.RECV_START ∨ s2.state = BusState.RECV_BYTE ∨
          s2.state = BusState.SEND_INIT ∨ s2.state = BusState.SEND_WAIT) :
    Inv s2 := by
  have hnotatt : ¬ inAttempt s2 := by
    rcases hs with h1 | h1 | h1 | h1 <;> simp [inAttempt, h1]
  have hnotidle : ¬ s2.state = BusState.IDLE := by
    rcases hs with h1 | h1 | h1 | h1 <;> simp [h1]
  refine ⟨?_, ?_, ?_, ?_, ?_, ?_, ?_, ?_, ?_, ?_, ?_⟩
  · rw [hn, hc]; exact h.queue
  · rw [hc, ht]; exact h.triesZero
  · rw [hc, hf]; exact h.flipsZero
  · rw [hc, ha]; exact h.attemptsZero
  · intro hx; exact absurd hx hnotatt
  · intro hx; exact absurd hx hnotatt
  · rw [ha]; exact h.attemptsLe
  · rw [ha, ht]
    rcases h.countTries with hx | hx | hx
    · exact Or.inl hx
    · exact Or.inr (Or.inl hx)
    · exact Or.inr (Or.inr ⟨hx.1, hx.2.1, hnotatt⟩)
  · rw [hf]; exact h.flipsLe
  · rw [hf, ht]; exact h.flipTries
  · intro hx; exact absurd hx hnotidle

/-- Any state that keeps the send-queue core and the pending ACK of an
invariant state that was itself mid-attempt (or emitting an ACK) and sits in
an attempt state again inherits the invariant. -/
theorem inv_attempt_step {s s2 : BusS} (h : Inv s)
    (hc : s2.sendCurTelegram = s.sendCurTelegram)
    (hn : s2.sendNextTel = s.sendNextTel)
    (ht : s2.sendTries = s.sendTries)
    (ha : s2.attempts = s.attempts)
    (hf : s2.flips = s.flips)
    (hack : s2.sendAck = s.sendAck)
    (hpre : inAttempt s ∨ s.sendAck ≠ 0)
    (hs : s2.state = BusState.SEND_START_BIT ∨ s2.state = BusState.SEND_BIT_0 ∨
          s2.state = BusState.SEND_BIT ∨ s2.state = BusState.SEND_BIT_WAIT ∨
          s2.state = BusState.SEND_END) :
    Inv s2 := by
  have hnotidle : ¬ s2.state = BusState.IDLE := by
    rcases hs with h1 | h1 | h1 | h1 | h1 <;> simp [h1]
  have hatt : inAttempt s2 → inAttempt s := by
    intro hx
    rcases hpre with hp | hp
    · exact hp
    · exact absurd (hack ▸ hx.2) hp
  have hnotatt : ¬ inAttempt s → ¬ inAttempt s2 := fun hx hy => hx (hatt hy)
  refine ⟨?_, ?_, ?_, ?_, ?_, ?_, ?_, ?_, ?_, ?_, ?_⟩
  · rw [hn, hc]; exact h.queue
  · rw [hc, ht]; exact h.triesZero
  · rw [hc, hf]; exact h.flipsZero
  · rw [hc, ha]; exact h.attemptsZero
  · intro hx; rw [hc]; exact h.attemptCur (hatt hx)
  · intro hx; rw [ht]; exact h.attemptTries (hatt hx)
  · rw [ha]; exact h.attemptsLe
  · rw [ha, ht]
    rcases h.countTries with hx | hx | hx
    · exact Or.inl hx
    · exact Or.inr (Or.inl hx)
    · exact Or.inr (Or.inr ⟨hx.1, hx.2.1, hnotatt hx.2.2⟩)
  · rw [hf]; exact h.flipsLe
  · rw [hf, ht]; exact h.flipTries
  · intro hx; exact absurd hx hnotidle

/-- sendNextTelegram preserves the invariant (it resets the counters with
the slot advance). -/
theorem inv_sendNextTelegram {s : BusS}
    (hs : s.state = BusState.RECV_START ∨ s.state = BusState.RECV_BYTE ∨
          s.state = BusState.SEND_INIT ∨ s.state = BusState.SEND_WAIT) :
    Inv (sendNextTelegramFn s) := by
  have hnotatt : ¬ inAttempt (sendNextTelegramFn s) := by
    rcases hs with h1 | h1 | h1 | h1 <;> simp [inAttempt, sendNextTelegramFn, h1]
  have hnotidle : ¬ (sendNextTelegramFn s).state = BusState.IDLE := by
    rcases hs with h1 | h1 | h1 | h1 <;> simp [sendNextTelegramFn, h1]
  refine ⟨?_, ?_, ?_, ?_, ?_, ?_, ?_, ?_, ?_, ?_, ?_⟩
  · intro hx; exact absurd rfl hx
  · intro _; rfl
  · intro _; rfl
  · intro _; rfl
  · intro hx; exact absurd hx hnotatt
  · intro hx; exact absurd hx hnotatt
  · show (0 : Nat) ≤ 3; omega
  · exact Or.inl rfl
  · show (0 : Nat) ≤ 1; omega
  · intro hx; exact absurd hx (by simp [sendNextTelegramFn])
  · intro hx; exact absurd hx hnotidle

/-- handleTelegram preserves the invariant. -/
theorem inv_handleTelegram (env : Env) (v : Bool) {s : BusS} (h : Inv s) :
    Inv (handleTelegramFn env v s) := by
  have hst : (handleTelegramFn env v s).state = BusState.SEND_INIT := by
    simp only [handleTelegramFn]
  have hcore :
      ((handleTelegramFn env v s).sendCurTelegram = s.sendCurTelegram ∧
       (handleTelegramFn env v s).sendNextTel = s.sendNextTel ∧
       (handleTelegramFn env v s).sendTries = s.sendTries ∧
       (handleTelegramFn env v s).attempts = s.attempts ∧
       (handleTelegramFn env v s).flips = s.flips) ∨
      ((handleTelegramFn env v s).sendCurTelegram = s.sendNextTel ∧
       (handleTelegramFn env v s).sendNextTel = none ∧
       (handleTelegramFn env v s).sendTries = 0 ∧
       (handleTelegramFn env v s).attempts = 0 ∧
       (handleTelegramFn env v s).flips = 0) := by
    simp only [handleTelegramFn, sendNextTelegramFn]
    split
    · left; simp
    · split
      · left
        refine ⟨?_, ?_, ?_, ?_, ?_⟩ <;> (repeat' split) <;> simp
      · split
        · split
          · right; simp
          · left; simp
        · left; simp
  have hnotatt : ¬ inAttempt (handleTelegramFn env v s) := by
    simp [inAttempt, hst]
  rcases hcore with ⟨hc, hn, ht, ha, hf⟩ | ⟨hc, hn, ht, ha, hf⟩
  · exact inv_of_core h hc hn ht ha hf (Or.inr (Or.inr (Or.inl hst)))
  · refine ⟨?_, ?_, ?_, ?_, ?_, ?_, ?_, ?_, ?_, ?_, ?_⟩
    · intro hx; exact absurd hn hx
    · intro _; exact ht
    · intro _; exact hf
    · intro _; exact ha
    · intro hx; exact absurd hx hnotatt
    · intro hx; exact absurd hx hnotatt
    · omega
    · exact Or.inl ha
    · omega
    · intro hx; omega
    · intro hx; rw [hst] at hx; exact absurd hx (by decide)

/-- RECV_START preserves the invariant. -/
theorem inv_caseRecvStart (env : Env) (inp : IsrInput) {s : BusS} (h : Inv s) :
    Inv (caseRecvStart env inp s) := by
  simp only [caseRecvStart]
  split
  · exact inv_handleTelegram env _ h
  · exact inv_of_core h rfl rfl rfl rfl rfl (Or.inr (Or.inl rfl))

/-- IDLE preserves the invariant. -/
theorem inv_caseIdle (env : Env) (inp : IsrInput) {s : BusS} (h : Inv s) :
    Inv (caseIdle env inp s) := by
  simp only [caseIdle]
  split
  · exact h
  · rename_i hc
    simp only [caseRecvStart]
    rw [if_neg hc]
    exact inv_of_core h rfl rfl rfl rfl rfl (Or.inr (Or.inl rfl))

/-- RECV_BYTE preserves the invariant. -/
theorem inv_caseRecvByte (inp : IsrInput) {s : BusS} (h : Inv s)
    (hstate : s.state = BusState.RECV_BYTE) :
    Inv (caseRecvByte inp s) := by
  simp only [caseRecvByte]
  split
  · split
    · exact inv_of_core h rfl rfl rfl rfl rfl (Or.inl rfl)
    · exact inv_of_core h rfl rfl rfl rfl rfl (Or.inl rfl)
  · exact inv_of_core h rfl rfl rfl rfl rfl (Or.inr (Or.inl hstate))

/-- SEND_BIT preserves the invariant when entered from an attempt state or
while an ACK emission is pending. -/
theorem inv_caseSendBit {s : BusS} (h : Inv s)
    (hstate : s.state = BusState.SEND_START_BIT ∨ s.state = BusState.SEND_BIT_0 ∨
              s.state = BusState.SEND_BIT) :
    Inv (caseSendBit s) := by
  have hpre : inAttempt s ∨ s.sendAck ≠ 0 := by
    by_cases hack : s.sendAck = 0
    · left
      exact ⟨by rcases hstate with h1 | h1 | h1 <;> simp [h1], hack⟩
    · right; exact hack
  have hs2 : (caseSendBit s).state = BusState.SEND_BIT ∨
      (caseSendBit s).state = BusState.SEND_BIT_WAIT ∨
      (caseSendBit s).state = BusState.SEND_BIT_0 ∨
      (caseSendBit s).state = BusState.SEND_END := by
    simp only [caseSendBit]
    repeat' split
    all_goals simp
  have hcore : (caseSendBit s).sendCurTelegram = s.sendCurTelegram ∧
      (caseSendBit s).sendNextTel = s.sendNextTel ∧
      (caseSendBit s).sendTries = s.sendTries ∧
      (caseSendBit s).attempts = s.attempts ∧
      (caseSendBit s).flips = s.flips ∧
      (caseSendBit s).sendAck = s.sendAck := by
    simp [caseSendBit]
  obtain ⟨hc, hn, ht, ha, hf, hack⟩ := hcore
  apply inv_attempt_step h hc hn ht ha hf hack hpre
  rcases hs2 with h1 | h1 | h1 | h1
  · exact Or.inr (Or.inr (Or.inl h1))
  · exact Or.inr (Or.inr (Or.inr (Or.inl h1)))
  · exact Or.inr (Or.inl h1)
  · exact Or.inr (Or.inr (Or.inr (Or.inr h1)))

/-- SEND_BIT_0 preserves the invariant when entered from SEND_START_BIT or
its own state. -/
theorem inv_caseSendBit0 {s s' : BusS} (h : Inv s)
    (hstate : s.state = BusState.SEND_START_BIT ∨ s.state = BusState.SEND_BIT_0)
    (hok : caseSendBit0 s = .ok s') : Inv s' := by
  simp only [caseSendBit0, bind, Except.bind] at hok
  split at hok
  · simp only [pure, Except.pure, Except.ok.injEq] at hok
    subst hok
    apply inv_caseSendBit
      (s := { s with currentByte := addParityBit s.sendAck, bitMask := 1 })
    · exact inv_attempt_step h rfl rfl rfl rfl rfl rfl
        (by rename_i hack; exact Or.inr hack)
        (by rcases hstate with h1 | h1 <;> simp [h1])
    · rcases hstate with h1 | h1 <;> simp [h1]
  · rename_i hack
    split at hok
    · exact absurd hok (by simp)
    · rename_i tel htel
      simp only [pure, Except.pure, Except.ok.injEq] at hok
      subst hok
      have hpre : inAttempt s := by
        refine ⟨?_, by simpa using hack⟩
        rcases hstate with h1 | h1 <;> simp [h1]
      apply inv_caseSendBit
        (s := { s with
                  nextByteIndex := s.nextByteIndex + 1,
                  currentByte := addParityBit (tel.getD s.nextByteIndex 0),
                  bitMask := 1 })
      · exact inv_attempt_step h rfl rfl rfl rfl rfl rfl (Or.inl hpre)
          (by rcases hstate with h1 | h1 <;> simp [h1])
      · rcases hstate with h1 | h1 <;> simp [h1]

/-- SEND_START_BIT preserves the invariant. -/
theorem inv_caseSendStartBit (env : Env) (inp : IsrInput) {s s' : BusS}
    (h : Inv s) (hstate : s.state = BusState.SEND_START_BIT)
    (hok : caseSendStartBit env inp s = .ok s') : Inv s' := by
  simp only [caseSendStartBit] at hok
  split at hok
  · split at hok
    · simp only [pure, Except.pure, Except.ok.injEq] at hok
      subst hok
      apply inv_caseRecvStart
      exact inv_of_core h rfl rfl rfl rfl rfl (Or.inl rfl)
    · simp only [pure, Except.pure, Except.ok.injEq] at hok
      subst hok
      refine inv_attempt_step h rfl rfl rfl rfl rfl rfl ?_ (Or.inr (Or.inl rfl))
      by_cases hack : s.sendAck = 0
      · exact Or.inl ⟨Or.inl hstate, hack⟩
      · exact Or.inr hack
  · exact inv_caseSendBit0 h (Or.inl hstate) hok

/-- SEND_END preserves the invariant: an ACK send clears the ACK, a
completed telegram attempt raises the try and attempt counters together. -/
theorem inv_caseSendEnd {s : BusS} (h : Inv s)
    (hstate : s.state = BusState.SEND_END) : Inv (caseSendEnd s) := by
  simp only [caseSendEnd]
  split
  · -- ACK concluded
    exact inv_of_core h rfl rfl rfl rfl rfl (Or.inr (Or.inr (Or.inr rfl)))
  · -- telegram attempt concluded
    rename_i hack
    dsimp only
    have hack2 : s.sendAck = 0 := by simpa using hack
    have hatt : inAttempt s := ⟨Or.inr (Or.inr (Or.inr (Or.inr hstate))), hack2⟩
    have hcur := h.attemptCur hatt
    have htr := h.attemptTries hatt
    have hcount := h.countTries
    have hale := h.attemptsLe
    refine ⟨?_, ?_, ?_, ?_, ?_, ?_, ?_, ?_, ?_, ?_, ?_⟩
    · intro hx; exact h.queue hx
    · intro hx; exact absurd hx hcur
    · intro hx; exact absurd hx hcur
    · intro hx; exact absurd hx hcur
    · intro hx
      exact absurd hx (by simp [inAttempt])
    · intro hx
      exact absurd hx (by simp [inAttempt])
    · show s.attempts + 1 ≤ 3
      rcases hcount with hx | hx | hx
      · omega
      · omega
      · exact absurd hatt hx.2.2
    · show s.attempts + 1 = 0 ∨ s.attempts + 1 + 1 ≤ s.sendTries + 1 ∨
        (s.attempts + 1 = 1 ∧ s.sendTries + 1 = 1 ∧ _)
      rcases hcount with hx | hx | hx
      · by_cases hz : s.sendTries = 0
        · right; right
          refine ⟨by omega, by omega, ?_⟩
          simp [inAttempt]
        · right; left; omega
      · right; left; omega
      · exact absurd hatt hx.2.2
    · exact h.flipsLe
    · intro hx
      have := h.flipTries hx
      show 2 ≤ s.sendTries + 1
      omega
    · intro hx; exact absurd hx (by simp)

/-- SEND_BIT_WAIT preserves the invariant. -/
theorem inv_caseSendBitWait (inp : IsrInput) {s : BusS} (h : Inv s)
    (hstate : s.state = BusState.SEND_BIT_WAIT) :
    Inv (caseSendBitWait inp s) := by
  simp only [caseSendBitWait]
  split
  · exact inv_of_core h rfl rfl rfl rfl rfl (Or.inr (Or.inl rfl))
  · refine inv_attempt_step h rfl rfl rfl rfl rfl rfl ?_
      (Or.inr (Or.inr (Or.inl rfl)))
    by_cases hack : s.sendAck = 0
    · exact Or.inl ⟨Or.inr (Or.inr (Or.inr (Or.inl hstate))), hack⟩
    · exact Or.inr hack

/-- SEND_INIT preserves the invariant. -/
theorem inv_caseSendInit (env : Env) (inp : IsrInput) {s s' : BusS}
    (h : Inv s) (_hstate : s.state = BusState.SEND_INIT)
    (hok : caseSendInit env inp s = .ok s') : Inv s' := by
  simp only [caseSendInit, bind, Except.bind] at hok
  split at hok
  · -- pending capture: yield to the receiver
    rename_i hcap
    simp only [pure, Except.pure, Except.ok.injEq] at hok
    subst hok
    simp only [caseIdle, caseRecvStart]
    rw [if_neg (by simp [hcap]), if_neg (by simp [hcap])]
    exact inv_of_core h rfl rfl rfl rfl rfl (Or.inr (Or.inl rfl))
  · split at hok
    · -- emit the pending acknowledgment
      rename_i hack
      simp only [pure, Except.pure, Except.ok.injEq] at hok
      subst hok
      exact inv_attempt_step h rfl rfl rfl rfl rfl rfl (Or.inr hack) (Or.inl rfl)
    · rename_i hack
      have hack0 : s.sendAck = 0 := by simpa using hack
      split at hok
      · -- more than three tries: abandon the current telegram
        rename_i htries
        split at hok
        · exact absurd hok (by simp)
        · simp only [pure, Except.pure] at hok
          simp only [sendNextTelegramFn] at hok
          split at hok
          · -- a queued telegram takes over, with zeroed counters
            rename_i tel htel
            have hflip : ¬ ((0 : Nat) = 1) := by omega
            simp only [if_neg hflip, pure, Except.pure, Except.ok.injEq] at hok
            subst hok
            refine ⟨?_, ?_, ?_, ?_, ?_, ?_, ?_, ?_, ?_, ?_, ?_⟩
            · intro hx; exact absurd rfl hx
            · intro _; rfl
            · intro _; rfl
            · intro _; rfl
            · intro _; simp [htel]
            · intro _; show (0 : Nat) ≤ 3; omega
            · show (0 : Nat) ≤ 3; omega
            · exact Or.inl rfl
            · show (0 : Nat) ≤ 1; omega
            · intro hx; exact absurd hx (by simp)
            · intro hx; exact absurd hx (by simp)
          · -- nothing queued: go idle
            simp only [idleStateFn, pure, Except.pure, Except.ok.injEq] at hok
            subst hok
            refine ⟨?_, ?_, ?_, ?_, ?_, ?_, ?_, ?_, ?_, ?_, ?_⟩
            · intro hx; exact absurd rfl hx
            · intro _; rfl
            · intro _; rfl
            · intro _; rfl
            · intro hx; exact absurd hx (by simp [inAttempt])
            · intro hx; exact absurd hx (by simp [inAttempt])
            · show (0 : Nat) ≤ 3; omega
            · exact Or.inl rfl
            · show (0 : Nat) ≤ 1; omega
            · intro hx; exact absurd hx (by simp)
            · intro _; exact ⟨rfl, rfl, rfl⟩
      · -- at most three tries: retry or start the current telegram
        rename_i htries
        have htle : s.sendTries ≤ 3 := by omega
        simp only [pure, Except.pure] at hok
        split at hok
        · rename_i tel htel
          split at hok
          · -- first retry: invert the repeat flag, sendTries 1 becomes 2
            rename_i h1
            simp only [Except.ok.injEq] at hok
            subst hok
            have hflip0 : s.flips = 0 := by
              have := h.flipTries
              have := h.flipsLe
              omega
            refine ⟨?_, ?_, ?_, ?_, ?_, ?_, ?_, ?_, ?_, ?_, ?_⟩
            · intro _; simp
            · intro hx; exact absurd hx (by simp)
            · intro hx; exact absurd hx (by simp)
            · intro hx; exact absurd hx (by simp)
            · intro _; simp
            · intro _; show s.sendTries + 1 ≤ 3; omega
            · show s.attempts ≤ 3; exact h.attemptsLe
            · show s.attempts = 0 ∨ s.attempts + 1 ≤ s.sendTries + 1 ∨ _
              rcases h.countTries with hx | hx | hx
              · exact Or.inl hx
              · left; omega
              · right; left; omega
            · show s.flips + 1 ≤ 1; omega
            · intro _; show 2 ≤ s.sendTries + 1; omega
            · intro hx; exact absurd hx (by simp)
          · -- plain (re)transmission: the telegram buffer is untouched
            rename_i h1
            simp only [Except.ok.injEq] at hok
            subst hok
            refine ⟨?_, ?_, ?_, ?_, ?_, ?_, ?_, ?_, ?_, ?_, ?_⟩
            · intro _; simp [htel]
            · intro hx; rw [htel] at hx; exact absurd hx (by simp)
            · intro hx; rw [htel] at hx; exact absurd hx (by simp)
            · intro hx; rw [htel] at hx; exact absurd hx (by simp)
            · intro _; simp [htel]
            · intro _; exact htle
            · exact h.attemptsLe
            · rcases h.countTries with hx | hx | hx
              · exact Or.inl hx
              · exact Or.inr (Or.inl hx)
              · exact absurd hx.2.1 h1
            · exact h.flipsLe
            · exact h.flipTries
            · intro hx; exact absurd hx (by simp)
        · -- no telegram: go idle
          rename_i hnone
          simp only [idleStateFn, Except.ok.injEq] at hok
          subst hok
          have ht0 := h.triesZero hnone
          have hf0 := h.flipsZero hnone
          have ha0 := h.attemptsZero hnone
          refine ⟨?_, ?_, ?_, ?_, ?_, ?_, ?_, ?_, ?_, ?_, ?_⟩
          · intro hx
            exact absurd hnone (h.queue hx)
          · intro _; exact ht0
          · intro _; exact hf0
          · intro _; exact ha0
          · intro hx; exact absurd hx (by simp [inAttempt])
          · intro hx; exact absurd hx (by simp [inAttempt])
          · exact h.attemptsLe
          · exact Or.inl ha0
          · exact h.flipsLe
          · exact h.flipTries
          · intro _; exact ⟨ht0, hf0, ha0⟩

/-- SEND_WAIT preserves the invariant. -/
theorem inv_caseSendWait (env : Env) (inp : IsrInput) {s s' : BusS}
    (h : Inv s) (hok : caseSendWait env inp s = .ok s') : Inv s' := by
  simp only [caseSendWait] at hok
  split at hok
  · simp only [pure, Except.pure, Except.ok.injEq] at hok
    subst hok
    exact h
  · refine inv_caseSendInit env inp ?_ rfl hok
    exact inv_of_core h rfl rfl rfl rfl rfl (Or.inr (Or.inr (Or.inl rfl)))

/-- The ISR preserves the invariant. -/
theorem inv_isr (env : Env) (inp : IsrInput) {s s' : BusS} (h : Inv s)
    (hok : isrStep env inp s = .ok s') : Inv s' := by
  cases hs : s.state
  case IDLE =>
    simp only [isrStep, hs, pure, Except.pure, Except.ok.injEq] at hok
    subst hok
    exact inv_caseIdle env inp h
  case RECV_START =>
    simp only [isrStep, hs, pure, Except.pure, Except.ok.injEq] at hok
    subst hok
    exact inv_caseRecvStart env inp h
  case RECV_BYTE =>
    simp only [isrStep, hs, pure, Except.pure, Except.ok.injEq] at hok
    subst hok
    exact inv_caseRecvByte inp h hs
  case SEND_INIT =>
    simp only [isrStep, hs] at hok
    exact inv_caseSendInit env inp h hs hok
  case SEND_START_BIT =>
    simp only [isrStep, hs] at hok
    exact inv_caseSendStartBit env inp h hs hok
  case SEND_BIT_0 =>
    simp only [isrStep, hs] at hok
    exact inv_caseSendBit0 h (Or.inr hs) hok
  case SEND_BIT =>
    simp only [isrStep, hs, pure, Except.pure, Except.ok.injEq] at hok
    subst hok
    exact inv_caseSendBit h (Or.inr (Or.inr hs))
  case SEND_BIT_WAIT =>
    simp only [isrStep, hs, pure, Except.pure, Except.ok.injEq] at hok
    subst hok
    exact inv_caseSendBitWait inp h hs
  case SEND_END =>
    simp only [isrStep, hs, pure, Except.pure, Except.ok.injEq] at hok
    subst hok
    exact inv_caseSendEnd h hs
  case SEND_WAIT =>
    simp only [isrStep, hs] at hok
    exact inv_caseSendWait env inp h hok

/-- The foreground installation preserves the invariant. -/
theorem inv_install (tel : List Nat) (len : Nat) {s : BusS} (h : Inv s)
    (hnext : s.sendNextTel = none) : Inv (installTelegram s tel len) := by
  simp only [installTelegram]
  split
  · rename_i hcur
    refine ⟨?_, ?_, ?_, ?_, ?_, ?_, ?_, ?_, ?_, ?_, ?_⟩
    · intro hx; exact absurd hnext hx
    · intro hx; exact absurd hx (by simp)
    · intro hx; exact absurd hx (by simp)
    · intro hx; exact absurd hx (by simp)
    · intro _; simp
    · intro hx; exact h.attemptTries hx
    · exact h.attemptsLe
    · exact h.countTries
    · exact h.flipsLe
    · exact h.flipTries
    · intro hx; exact h.idleZero hx
  · rename_i hcur
    refine ⟨?_, ?_, ?_, ?_, ?_, ?_, ?_, ?_, ?_, ?_, ?_⟩
    · intro _; exact hcur
    · intro hx; exact absurd hx hcur
    · intro hx; exact absurd hx hcur
    · intro hx; exact absurd hx hcur
    · intro _; exact hcur
    · intro hx; exact h.attemptTries hx
    · exact h.attemptsLe
    · exact h.countTries
    · exact h.flipsLe
    · exact h.flipTries
    · intro hx; exact h.idleZero hx

/-- The foreground kick-start preserves the invariant. -/
theorem inv_kick {s : BusS} (h : Inv s) (hidle : s.state = BusState.IDLE) :
    Inv (kickStart s) := by
  obtain ⟨ht0, hf0, ha0⟩ := h.idleZero hidle
  refine ⟨?_, ?_, ?_, ?_, ?_, ?_, ?_, ?_, ?_, ?_, ?_⟩
  · intro hx; exact h.queue hx
  · intro _; rfl
  · intro _; exact hf0
  · intro _; exact ha0
  · intro hx; exact absurd hx (by simp [inAttempt, kickStart])
  · intro hx; exact absurd hx (by simp [inAttempt, kickStart])
  · show s.attempts ≤ 3; exact h.attemptsLe
  · exact Or.inl ha0
  · show s.flips ≤ 1; exact h.flipsLe
  · intro hx
    show 2 ≤ 0
    exact absurd (by simpa [kickStart] using hx) (by omega)
  · intro hx; exact absurd hx (by simp [kickStart])

/-- The initial state satisfies the invariant. -/
theorem inv_initial (ownAddr : Nat) : Inv (initialState ownAddr) := by
  refine ⟨?_, ?_, ?_, ?_, ?_, ?_, ?_, ?_, ?_, ?_, ?_⟩ <;>
    simp [initialState, inAttempt]

/-- Every reachable state satisfies the invariant. -/
theorem reachable_inv (env : Env) {s : BusS} (h : Reachable env s) : Inv s := by
  induction h with
  | init ownAddr => exact inv_initial ownAddr
  | isr inp _ hok ih => exact inv_isr env inp ih hok
  | install tel len _ hnext ih => exact inv_install tel len ih hnext
  | kick _ hidle ih => exact inv_kick ih hidle

/-- The SEND_BIT_0 byte load succeeds whenever a clear sendAck comes with a
non-null current telegram. -/
theorem caseSendBit0_ok {s : BusS}
    (hc : s.sendAck = 0 → s.sendCurTelegram ≠ none) :
    ∃ s2, caseSendBit0 s = .ok s2 := by
  simp only [caseSendBit0, bind, Except.bind]
  split
  · exact ⟨_, rfl⟩
  · rename_i hack
    have hack0 : s.sendAck = 0 := by simpa using hack
    split
    · rename_i hnone
      exact absurd hnone (hc hack0)
    · exact ⟨_, rfl⟩

/-- The SEND_INIT dispatch succeeds whenever an exhausted try budget comes
with a non-null current telegram. -/
theorem caseSendInit_ok (env : Env) (inp : IsrInput) {s : BusS}
    (hc : 3 < s.sendTries → s.sendCurTelegram ≠ none) :
    ∃ s2, caseSendInit env inp s = .ok s2 := by
  simp only [caseSendInit, bind, Except.bind]
  split
  · exact ⟨_, rfl⟩
  · split
    · exact ⟨_, rfl⟩
    · split
      · rename_i htries
        split
        · rename_i hnone
          exact absurd hnone (hc htries)
        · simp only [pure, Except.pure]
          split
          · split
            · exact ⟨_, rfl⟩
            · exact ⟨_, rfl⟩
          · exact ⟨_, rfl⟩
      · simp only [pure, Except.pure]
        split
        · split
          · exact ⟨_, rfl⟩
          · exact ⟨_, rfl⟩
        · exact ⟨_, rfl⟩

/-- On an invariant state the ISR always returns a state (it never faults). -/
theorem isr_ok (env : Env) (inp : IsrInput) {s : BusS} (h : Inv s) :
    ∃ s2, isrStep env inp s = .ok s2 := by
  cases hs : s.state
  case IDLE => exact ⟨_, by simp only [isrStep, hs]; rfl⟩
  case RECV_START => exact ⟨_, by simp only [isrStep, hs]; rfl⟩
  case RECV_BYTE => exact ⟨_, by simp only [isrStep, hs]; rfl⟩
  case SEND_INIT =>
    simp only [isrStep, hs]
    apply caseSendInit_ok
    intro htries hnone
    have := h.triesZero hnone
    omega
  case SEND_START_BIT =>
    simp only [isrStep, hs, caseSendStartBit]
    split
    · split
      · exact ⟨_, rfl⟩
      · exact ⟨_, rfl⟩
    · apply caseSendBit0_ok
      intro hack
      exact h.attemptCur ⟨Or.inl hs, hack⟩
  case SEND_BIT_0 =>
    simp only [isrStep, hs]
    apply caseSendBit0_ok
    intro hack
    exact h.attemptCur ⟨Or.inr (Or.inl hs), hack⟩
  case SEND_BIT => exact ⟨_, by simp only [isrStep, hs]; rfl⟩
  case SEND_BIT_WAIT => exact ⟨_, by simp only [isrStep, hs]; rfl⟩
  case SEND_END => exact ⟨_, by simp only [isrStep, hs]; rfl⟩
  case SEND_WAIT =>
    simp only [isrStep, hs, caseSendWait]
    split
    · exact ⟨_, rfl⟩
    · apply caseSendInit_ok
      intro htries hnone
      have h0 : s.sendTries = 0 := h.triesZero hnone
      have h1 : 3 < s.sendTries := htries
      omega

/-! ## C5: the queue invariant -/

/-- Lifting a quiet-bus run into the interleaved semantics: every auto step
of an invariant state is a successful ISR step, so the iterated run stays
reachable with the foreground phase unchanged. -/
theorem reachableI_runAuto (env : Env) (n : Nat) :
    ∀ {b : BusS} {fg : FgPhase}, ReachableI env ⟨b, fg⟩ → Inv b →
      ReachableI env ⟨runAuto env n b, fg⟩ := by
  induction n with
  | zero =>
    intro b fg h _
    exact h
  | succ k ih =>
    intro b fg h hinv
    obtain ⟨b2, hok⟩ := isr_ok env (autoInput b) hinv
    have hstep : stepAuto env b = b2 := by simp [stepAuto, hok]
    have h2 : ReachableI env ⟨b2, fg⟩ := ReachableI.isr (autoInput b) h hok
    have hinv2 : Inv b2 := inv_isr env (autoInput b) hinv hok
    show ReachableI env ⟨runAuto env k (stepAuto env b), fg⟩
    rw [hstep]
    exact ih h2 hinv2

set_option maxRecDepth 10000 in
/-- C5, code bug: the queue invariant (a non-null next slot implies a
non-null current slot) is violable in the source, because interrupts stay
enabled across the slot installation.  Concrete interleaving: from the
quiet-bus state after 228 interrupts (current telegram unacknowledged,
sendTries 4, SEND_WAIT), the foreground passes the current-slot test of a
second sendTelegram and commits to the next slot; the next timer interrupt
runs the SEND_INIT abandon path, releasing both slots and idling the
machine; the foreground then stores its telegram into the next slot.  The
resulting reachable state has an occupied next slot and a null current slot
- the queued telegram is stranded, since nothing ever advances the next
slot while the current one is null. -/
theorem queue_invariant_code_bug :
    ReachableI envEmpty
      ⟨{ runAuto envEmpty 229 sendStart with
           sendNextTel := some (prepareTelegram 0 (List.replicate 8 0) 7) },
        FgPhase.idle⟩ ∧
    ({ runAuto envEmpty 229 sendStart with
         sendNextTel := some (prepareTelegram 0 (List.replicate 8 0) 7) } :
       BusS).sendNextTel ≠ none ∧
    ({ runAuto envEmpty 229 sendStart with
         sendNextTel := some (prepareTelegram 0 (List.replicate 8 0) 7) } :
       BusS).sendCurTelegram = none := by
  have hinv : Inv sendStart :=
    inv_kick (inv_install (List.replicate 8 0) 7 (inv_initial 0) rfl) rfl
  have r1 : ReachableI envEmpty
      ⟨{ initialState 0 with
           sendCurTelegram := some (prepareTelegram (initialState 0).ownAddr
             (List.replicate 8 0) 7) },
        FgPhase.idle⟩ :=
    ReachableI.installCur (List.replicate 8 0) 7 (ReachableI.init 0) rfl rfl
  have r2 : ReachableI envEmpty
      ⟨kickStart { initialState 0 with
           sendCurTelegram := some (prepareTelegram (initialState 0).ownAddr
             (List.replicate 8 0) 7) },
        FgPhase.idle⟩ :=
    ReachableI.kick r1 rfl
  have hbus : kickStart { initialState 0 with
      sendCurTelegram := some (prepareTelegram (initialState 0).ownAddr
        (List.replicate 8 0) 7) } = sendStart := by decide
  rw [hbus] at r2
  have r3 : ReachableI envEmpty
      ⟨runAuto envEmpty 228 sendStart, FgPhase.idle⟩ :=
    reachableI_runAuto envEmpty 228 r2 hinv
  have r4 : ReachableI envEmpty
      ⟨runAuto envEmpty 228 sendStart,
        FgPhase.pendingNext (prepareTelegram
          (runAuto envEmpty 228 sendStart).ownAddr (List.replicate 8 0) 7)⟩ :=
    ReachableI.installNextTest (List.replicate 8 0) 7 r3 (by decide) (by decide)
  have hown : (runAuto envEmpty 228 sendStart).ownAddr = 0 := by decide
  rw [hown] at r4
  have hstep : isrStep envEmpty (autoInput (runAuto envEmpty 228 sendStart))
      (runAuto envEmpty 228 sendStart) = .ok (runAuto envEmpty 229 sendStart) := by
    decide
  have r5 : ReachableI envEmpty
      ⟨runAuto envEmpty 229 sendStart,
        FgPhase.pendingNext (prepareTelegram 0 (List.replicate 8 0) 7)⟩ :=
    ReachableI.isr (autoInput (runAuto envEmpty 228 sendStart)) r4 hstep
  have r6 : ReachableI envEmpty
      ⟨{ runAuto envEmpty 229 sendStart with
           sendNextTel := some (prepareTelegram 0 (List.replicate 8 0) 7) },
        FgPhase.idle⟩ :=
    ReachableI.installNextStore r5 (by decide)
  refine ⟨r6, by simp, by decide⟩

/-! ## C10: the null-safety of the abandon path -/

/-- C10: in every reachable state a null current telegram implies
sendTries = 0, and the ISR never faults on any input - in particular the
unguarded abandon path of SEND_INIT (which runs only when sendTries exceeds
3, hence on a non-null telegram) and the byte load of SEND_BIT_0 never
dereference a null pointer. -/
theorem no_null_deref (env : Env) (s : BusS) (h : Reachable env s) :
    (s.sendCurTelegram = none → s.sendTries = 0) ∧
    ∀ inp : IsrInput, ∃ s2 : BusS, isrStep env inp s = .ok s2 := by
  have hinv := reachable_inv env h
  exact ⟨hinv.triesZero, fun inp => isr_ok env inp hinv⟩

/-- Witness for `no_null_deref` at the initial state. -/
theorem no_null_deref_witness :
    ((initialState 0).sendCurTelegram = none → (initialState 0).sendTries = 0) ∧
    ∀ inp : IsrInput, ∃ s2 : BusS, isrStep envEmpty inp (initialState 0) = .ok s2 :=
  no_null_deref envEmpty (initialState 0) (Reachable.init 0)

/-! ## C3: the repeat-flag inversion -/

/-- C3: at SEND_INIT with sendTries = 1 the handler clears bit 5 of octet 0,
XORs 0x20 into the checksum octet at index sendTelegramLen - 1 and double
increments sendTries to 2; with any other try count up to the retry budget
the telegram octets stay untouched; and in every reachable state the ghost
inversion counter is at most 1, so the two octets of a telegram are never
inverted twice before the send slot advances. -/
theorem repeat_flag_inversion (env : Env) (inp : IsrInput) (s : BusS)
    (tel : List Nat) (hstate : s.state = BusState.SEND_INIT)
    (hcap : inp.captureFlag = false) (hack : s.sendAck = 0)
    (htel : s.sendCurTelegram = some tel) :
    (s.sendTries = 1 →
      ∃ s2, isrStep env inp s = .ok s2 ∧
        s2.sendCurTelegram = some (flipRepeat tel (telegramSize tel + 1)) ∧
        s2.sendTries = 2 ∧ s2.flips = s.flips + 1 ∧
        s2.sendTelegramLen = telegramSize tel + 1 ∧
        s2.state = BusState.SEND_START_BIT) ∧
    (s.sendTries ≠ 1 → s.sendTries ≤ 3 →
      ∃ s2, isrStep env inp s = .ok s2 ∧ s2.sendCurTelegram = some tel ∧
        s2.sendTries = s.sendTries ∧ s2.flips = s.flips) ∧
    (∀ s3 : BusS, Reachable env s3 → s3.flips ≤ 1) := by
  refine ⟨?_, ?_, fun s3 h3 => (reachable_inv env h3).flipsLe⟩
  · intro h1
    have heq : isrStep env inp s =
        .ok { s with
                sendCurTelegram := some (flipRepeat tel (telegramSize tel + 1)),
                sendTries := s.sendTries + 1, flips := s.flips + 1,
                sendTelegramLen := telegramSize tel + 1,
                matchPwm := PRE_SEND_TIME + ((tel.getD 0 0 >>> 2) &&& 3) * BIT_TIME,
                matchTime := PRE_SEND_TIME + ((tel.getD 0 0 >>> 2) &&& 3) * BIT_TIME +
                  BIT_PULSE_TIME,
                nextByteIndex := 0, state := BusState.SEND_START_BIT } := by
      simp [isrStep, hstate, caseSendInit, bind, Except.bind, pure, Except.pure,
        hcap, hack, htel, h1]
    refine ⟨_, heq, by simp, by simp [h1], by simp, by simp, by simp⟩
  · intro h1 h3
    have heq : isrStep env inp s =
        .ok { s with
                sendTelegramLen := telegramSize tel + 1,
                matchPwm := PRE_SEND_TIME + ((tel.getD 0 0 >>> 2) &&& 3) * BIT_TIME,
                matchTime := PRE_SEND_TIME + ((tel.getD 0 0 >>> 2) &&& 3) * BIT_TIME +
                  BIT_PULSE_TIME,
                nextByteIndex := 0, state := BusState.SEND_START_BIT } := by
      have hn3 : ¬ 3 < s.sendTries := by omega
      simp [isrStep, hstate, caseSendInit, bind, Except.bind, pure, Except.pure,
        hcap, hack, htel, h1, hn3]
    refine ⟨_, heq, by simp [htel], by simp, by simp⟩

/-- Witness for `repeat_flag_inversion` at a concrete first-retry state
(the freshly kick-started all-zero telegram with sendTries forced to 1). -/
theorem repeat_flag_inversion_witness :
    (({ sendStart with sendTries := 1 } : BusS).sendTries = 1 →
      ∃ s2, isrStep envEmpty
          { captureFlag := false, timeFlag := true, captureVal := 0, timerVal := 0 }
          { sendStart with sendTries := 1 } = .ok s2 ∧
        s2.sendCurTelegram = some (flipRepeat
          (prepareTelegram 0 (List.replicate 8 0) 7)
          (telegramSize (prepareTelegram 0 (List.replicate 8 0) 7) + 1)) ∧
        s2.sendTries = 2 ∧
        s2.flips = ({ sendStart with sendTries := 1 } : BusS).flips + 1 ∧
        s2.sendTelegramLen =
          telegramSize (prepareTelegram 0 (List.replicate 8 0) 7) + 1 ∧
        s2.state = BusState.SEND_START_BIT) ∧
    (({ sendStart with sendTries := 1 } : BusS).sendTries ≠ 1 →
      ({ sendStart with sendTries := 1 } : BusS).sendTries ≤ 3 →
      ∃ s2, isrStep envEmpty
          { captureFlag := false, timeFlag := true, captureVal := 0, timerVal := 0 }
          { sendStart with sendTries := 1 } = .ok s2 ∧
        s2.sendCurTelegram = some (prepareTelegram 0 (List.replicate 8 0) 7) ∧
        s2.sendTries = ({ sendStart with sendTries := 1 } : BusS).sendTries ∧
        s2.flips = ({ sendStart with sendTries := 1 } : BusS).flips) ∧
    (∀ s3 : BusS, Reachable envEmpty s3 → s3.flips ≤ 1) :=
  repeat_flag_inversion envEmpty
    { captureFlag := false, timeFlag := true, captureVal := 0, timerVal := 0 }
    { sendStart with sendTries := 1 }
    (prepareTelegram 0 (List.replicate 8 0) 7)
    (by decide) rfl (by decide) (by decide)

/-! ## C4: the retry bound -/

/-- C4, amended: in every reachable state at most 3 complete transmission
attempts of the current telegram have occurred since the send slot last
advanced (the first unacknowledged attempt consumes two sendTries
increments); sendTries and the attempt count rise together at SEND_END of
every non-ACK transmission; and a SEND_INIT with the budget exceeded
(sendTries above 3) releases the slot: the queue advances and the counters
clear. -/
theorem retry_bound_amended (env : Env) (s : BusS) (h : Reachable env s) :
    s.attempts ≤ 3 ∧
    (s.state = BusState.SEND_END → s.sendAck = 0 →
      ∀ inp : IsrInput, ∃ s2, isrStep env inp s = .ok s2 ∧
        s2.sendTries = s.sendTries + 1 ∧ s2.attempts = s.attempts + 1) ∧
    (s.state = BusState.SEND_INIT → s.sendAck = 0 → 3 < s.sendTries →
      ∀ inp : IsrInput, inp.captureFlag = false →
        ∃ s2, isrStep env inp s = .ok s2 ∧
          s2.sendCurTelegram = s.sendNextTel ∧ s2.sendNextTel = none ∧
          s2.sendTries = 0 ∧ s2.attempts = 0) := by
  refine ⟨(reachable_inv env h).attemptsLe, ?_, ?_⟩
  · intro hstate hack inp
    refine ⟨caseSendEnd s, by simp [isrStep, hstate, pure, Except.pure], ?_, ?_⟩
    · simp [caseSendEnd, hack]
    · simp [caseSendEnd, hack]
  · intro hstate hack htries inp hcap
    obtain ⟨tel0, htel0⟩ : ∃ t, s.sendCurTelegram = some t := by
      cases hc : s.sendCurTelegram with
      | none =>
        have := (reachable_inv env h).triesZero hc
        omega
      | some t => exact ⟨t, rfl⟩
    cases hnx : s.sendNextTel with
    | none =>
      have heq : isrStep env inp s =
          .ok { s with
                  sendCurTelegram := none, sendNextTel := none, sendTries := 0,
                  sendTelegramLen := 0, attempts := 0, flips := 0,
                  matchTime := 0xfffe, matchPwm := 0xffff,
                  state := BusState.IDLE, sendAck := 0 } := by
        simp [isrStep, hstate, caseSendInit, bind, Except.bind, pure,
          Except.pure, hcap, hack, htries, htel0, hnx, sendNextTelegramFn,
          idleStateFn]
      exact ⟨_, heq, by simp [hnx], by simp, by simp, by simp⟩
    | some tel2 =>
      have heq : isrStep env inp s =
          .ok { s with
                  sendCurTelegram := some tel2, sendNextTel := none,
                  sendTries := 0,
                  sendTelegramLen := telegramSize tel2 + 1,
                  attempts := 0, flips := 0,
                  matchPwm := PRE_SEND_TIME +
                    ((tel2.getD 0 0 >>> 2) &&& 3) * BIT_TIME,
                  matchTime := PRE_SEND_TIME +
                    ((tel2.getD 0 0 >>> 2) &&& 3) * BIT_TIME + BIT_PULSE_TIME,
                  nextByteIndex := 0, state := BusState.SEND_START_BIT } := by
        simp [isrStep, hstate, caseSendInit, bind, Except.bind, pure,
          Except.pure, hcap, hack, htries, htel0, hnx, sendNextTelegramFn]
      exact ⟨_, heq, by simp [hnx], by simp, by simp, by simp⟩

/-- Witness for `retry_bound_amended` at the initial state. -/
theorem retry_bound_amended_witness :
    (initialState 0).attempts ≤ 3 ∧
    ((initialState 0).state = BusState.SEND_END → (initialState 0).sendAck = 0 →
      ∀ inp : IsrInput, ∃ s2, isrStep envEmpty inp (initialState 0) = .ok s2 ∧
        s2.sendTries = (initialState 0).sendTries + 1 ∧
        s2.attempts = (initialState 0).attempts + 1) ∧
    ((initialState 0).state = BusState.SEND_INIT → (initialState 0).sendAck = 0 →
      3 < (initialState 0).sendTries →
      ∀ inp : IsrInput, inp.captureFlag = false →
        ∃ s2, isrStep envEmpty inp (initialState 0) = .ok s2 ∧
          s2.sendCurTelegram = (initialState 0).sendNextTel ∧
          s2.sendNextTel = none ∧ s2.sendTries = 0 ∧ s2.attempts = 0) :=
  retry_bound_amended envEmpty (initialState 0) (Reachable.init 0)

set_option maxRecDepth 10000 in
/-- C4, counterexample: driving the freshly accepted all-zero telegram on a
quiet bus that never acknowledges: after 228 interrupts the machine sits in
SEND_WAIT with exactly 3 complete transmission attempts behind it
(sendTries 4); the very next interrupt releases the send slot (queue
advanced, counters cleared) and the machine idles, so the slot is released
after the 3rd complete attempt and a 4th attempt never occurs. -/
theorem retry_bound_counterexample :
    (runAuto envEmpty 228 sendStart).state = BusState.SEND_WAIT ∧
    (runAuto envEmpty 228 sendStart).attempts = 3 ∧
    (runAuto envEmpty 228 sendStart).sendTries = 4 ∧
    (runAuto envEmpty 228 sendStart).sendCurTelegram.isSome = true ∧
    (runAuto envEmpty 229 sendStart).sendCurTelegram = none ∧
    (runAuto envEmpty 229 sendStart).attempts = 0 ∧
    (runAuto envEmpty 229 sendStart).state = BusState.IDLE := by
  decide

end KnxBus
